import Mathlib

/-
Verification of the dialog/context engine of the telegram-ai-assistant
repository: a shallow embedding of the NLP core (context manager, entity
extractor, intent classifier, complexity gate, knowledge gate and the
multi-part question handler) together with proofs of the specified
properties.  Python dicts are modelled as association lists with unique
keys maintained by in-place replacement, Python `None` as an explicit
value constructor, wall-clock time as an explicit integer parameter, and
references to nested mutable list objects as addresses into an explicit
heap (used to reason about the shallow-copy semantics of `dict.copy()`).
-/

namespace Bot

/-- A conversation turn for the external-model bridge: a role tag and the
message content (Python dict `{"role": r, "content": c}`). -/
structure ConvTurn where
  role : String
  content : String
deriving DecidableEq, Repr

/-- A Python-like value stored in a user-context record.  `none` models
Python `None`; `str`, `int`, `rat` model primitive values (floats carrying
confidence scores are modelled as rationals); `entmap` models an entity
bag (dict from entity type to list of matches); `conv` models a list of
conversation turns; `ref a` models a reference to a mutable list object
living at address `a` of the heap. -/
inductive Value where
  | none
  | str (s : String)
  | int (n : Int)
  | rat (q : ℚ)
  | entmap (m : List (String × List String))
  | conv (h : List ConvTurn)
  | ref (a : Nat)
deriving DecidableEq, Repr

/-- A user-context record: a Python dict keyed by strings. -/
abbrev Record := List (String × Value)

/-- Association-list lookup; the first binding wins (a Python dict has
unique keys, and all our operations keep keys unique). -/
def alookup {κ α : Type} [DecidableEq κ] (k : κ) : List (κ × α) → Option α
  | [] => Option.none
  | (k', v) :: r => if k' = k then some v else alookup k r

/-- Python `d[k] = v`: replace the first binding of `k` in place if
present, otherwise append a new binding. -/
def aset {κ α : Type} [DecidableEq κ] (k : κ) (v : α) :
    List (κ × α) → List (κ × α)
  | [] => [(k, v)]
  | (k', v') :: r => if k' = k then (k, v) :: r else (k', v') :: aset k v r

/-- Python `dict.update(p)`: fold the new bindings over the dict
left-to-right. -/
def rupdate (r p : Record) : Record :=
  p.foldl (fun acc kv => aset kv.1 kv.2 acc) r

/-- The keys of a record, in order. -/
def keys {κ α : Type} (r : List (κ × α)) : List κ := r.map Prod.fst

/-- Python `key.startswith("_")`, the marker of internal bookkeeping
keys. -/
def isInternalKey (s : String) : Bool :=
  match s.data with
  | [] => false
  | c :: _ => c = '_'

/-- The in-memory context store of `ContextManager`
(src/nlp/context_manager.py): the `contexts` dict from user id to record,
and the configured expiry window (600 seconds by default). -/
structure ContextManager where
  contexts : List (String × Record)
  expiry_seconds : Int
deriving Repr

/-- `ContextManager()` as constructed by the handler: default expiry of
600 seconds and an empty store. -/
def mkContextManager : ContextManager := ⟨[], 600⟩

/-- `set_context`: create the record if absent, `update` it with the new
data, then set `_last_updated` to the current time. -/
def set_context (cm : ContextManager) (uid : String) (data : Record)
    (now : Int) : ContextManager :=
  let old := (alookup uid cm.contexts).getD []
  let r1 := rupdate old data
  let r2 := aset "_last_updated" (Value.int now) r1
  { cm with contexts := aset uid r2 cm.contexts }

/-- `clear_context`: delete the user's record if present. -/
def clear_context (cm : ContextManager) (uid : String) : ContextManager :=
  { cm with contexts := cm.contexts.filter (fun p => p.1 ≠ uid) }

/-- The stored `_last_updated` stamp, read with Python's
`get('_last_updated', 0)` default. -/
def lastUpdated (r : Record) : Int :=
  match alookup "_last_updated" r with
  | some (Value.int t) => t
  | _ => 0

/-- The copy-and-strip step of `get_context`: `context.copy()` followed by
popping every key that starts with an underscore.  `dict.copy()` is a
shallow copy, so the values — including `Value.ref` addresses — are the
very same objects as in the stored record. -/
def stripInternal (r : Record) : Record :=
  r.filter (fun kv => ¬ isInternalKey kv.1)

/-- `get_context`: absent record gives `none`; an expired record (age
strictly above the window) is physically deleted and `none` is returned;
a live record is returned as a shallow copy with internal keys
stripped. -/
def get_context (cm : ContextManager) (uid : String) (now : Int) :
    ContextManager × Option Record :=
  match alookup uid cm.contexts with
  | Option.none => (cm, Option.none)
  | some r =>
    if now - lastUpdated r > cm.expiry_seconds then
      (clear_context cm uid, Option.none)
    else
      (cm, some (stripInternal r))

/-- `update_context`: only if the user already has a record, set the one
key and refresh `_last_updated`; otherwise do nothing. -/
def update_context (cm : ContextManager) (uid k : String) (v : Value)
    (now : Int) : ContextManager :=
  match alookup uid cm.contexts with
  | Option.none => cm
  | some r =>
    { cm with
      contexts :=
        aset uid (aset "_last_updated" (Value.int now) (aset k v r))
          cm.contexts }

/-- The heap of mutable list objects referenced by `Value.ref`
addresses. -/
abbrev Heap := List (Nat × List String)

/-- Mutating a list object in place (e.g. `lst.append`, `lst[0] = x`)
replaces the heap cell's content at its address. -/
def heapWrite (h : Heap) (a : Nat) (xs : List String) : Heap :=
  aset a xs h

/-- The observable content of a value: references are dereferenced
through the heap, every other value stands for itself. -/
inductive VView where
  | cell (c : Option (List String))
  | plain (v : Value)
deriving DecidableEq, Repr

/-- Dereference a value through the heap. -/
def valView (h : Heap) : Value → VView
  | Value.ref a => VView.cell (alookup a h)
  | v => VView.plain v

/-- The observable content of a record under a heap: what a Python caller
sees when reading the dict and its nested list objects. -/
def recordView (h : Heap) (r : Record) : List (String × VView) :=
  r.map (fun kv => (kv.1, valView h kv.2))

/-- Concrete store used to exhibit the shallow-copy behaviour of
`get_context`: the record for user `u` holds a nested mutable list object
(an entity list) at heap address 0. -/
def c8cm : ContextManager :=
  ⟨[("u", [("last_entities", Value.ref 0), ("_last_updated", Value.int 0)])],
    600⟩

/-- The heap matching `c8cm`: the nested list object at address 0. -/
def c8heap : Heap := [(0, ["621"])]

/- ### Character classes: the ASCII fragment of the regex classes used -/

/-- Regex `\d` (ASCII): codepoints 48..57. -/
def isDigitChar (c : Char) : Bool := 48 ≤ c.toNat && c.toNat ≤ 57

/-- Regex `\s` (ASCII): space, tab, newline, carriage return, vertical
tab, form feed. -/
def isSpaceChar (c : Char) : Bool :=
  c.toNat = 32 || c.toNat = 9 || c.toNat = 10 || c.toNat = 13 ||
    c.toNat = 11 || c.toNat = 12

/-- Regex `\w` (ASCII): letters, digits and underscore. -/
def isWordChar (c : Char) : Bool :=
  (97 ≤ c.toNat && c.toNat ≤ 122) || (65 ≤ c.toNat && c.toNat ≤ 90) ||
    isDigitChar c || c.toNat = 95

/-- Regex `[a-zA-Z]`. -/
def isLetterChar (c : Char) : Bool :=
  (97 ≤ c.toNat && c.toNat ≤ 122) || (65 ≤ c.toNat && c.toNat ≤ 90)

/-- The letter `I` case-insensitively (`I` = 73, `i` = 105). -/
def isIc (c : Char) : Bool := c.toNat = 73 || c.toNat = 105

/-- The letter `S` case-insensitively (`S` = 83, `s` = 115). -/
def isSc (c : Char) : Bool := c.toNat = 83 || c.toNat = 115

/- ### EntityExtractor (src/nlp/entity_extractor.py) -/

/-- One match attempt of `IS\s*(\d{3})` (with `re.IGNORECASE`) at the
current position: `I`, `S`, a greedy whitespace run, then three digits;
returns the captured digit group and the remainder after the match.  The
greedy `\s*` never backtracks successfully here, because a digit is not
whitespace: the three digits can only start right after the maximal
whitespace run. -/
def ccMatchAt : List Char → Option (String × List Char)
  | c1 :: c2 :: rest =>
    if isIc c1 && isSc c2 then
      match rest.dropWhile isSpaceChar with
      | d1 :: d2 :: d3 :: r2 =>
        if isDigitChar d1 && isDigitChar d2 && isDigitChar d3 then
          some (String.mk [d1, d2, d3], r2)
        else Option.none
      | _ => Option.none
    else Option.none
  | _ => Option.none

/-- The `re.findall` scan loop for the course-code pattern, with explicit
fuel (one unit per scan step) so that it stays structurally recursive:
at each position try a match; on success emit the captured group and
continue after the consumed span, on failure advance one character. -/
def ccScanFuel : Nat → List Char → List String
  | 0, _ => []
  | _ + 1, [] => []
  | n + 1, c :: cs =>
    match ccMatchAt (c :: cs) with
    | some sr => sr.1 :: ccScanFuel n sr.2
    | Option.none => ccScanFuel n cs

/-- `re.findall(r"IS\s*(\d{3})", text, re.IGNORECASE)`: the scan always
terminates within `length` steps, so `length` fuel is exact. -/
def ccScanList (l : List Char) : List String := ccScanFuel l.length l

/-- Greedy run of a one-character class: the maximal prefix satisfying
`p` and the remainder. -/
def takeRun (p : Char → Bool) (l : List Char) : List Char × List Char :=
  (l.takeWhile p, l.dropWhile p)

/-- One match attempt of the date pattern: `\d{1,2}`, a dash-or-slash
separator, `\d{1,2}`, a separator, `\d{2,4}`, all in one capture group.
A greedy `\d{1,2}` followed by a
separator fails whenever the digit run is longer than 2 (backtracking
still faces a digit where the separator is required), so the run lengths
are checked directly; `\d{2,4}` takes at most four digits greedily and
is the end of the pattern, so longer runs simply leave the surplus
digits unconsumed. -/
def dateMatchAt (l : List Char) : Option (String × List Char) :=
  let (r1, l1) := takeRun isDigitChar l
  if r1.length = 0 || r1.length > 2 then Option.none else
  match l1 with
  | s1 :: l2 =>
    if s1 == '-' || s1 == '/' then
      let (r2, l3) := takeRun isDigitChar l2
      if r2.length = 0 || r2.length > 2 then Option.none else
      match l3 with
      | s2 :: l4 =>
        if s2 == '-' || s2 == '/' then
          let (r3, l5) := takeRun isDigitChar l4
          if r3.length < 2 then Option.none
          else some (String.mk (r1 ++ s1 :: r2 ++ s2 :: r3.take 4),
            r3.drop 4 ++ l5)
        else Option.none
      | [] => Option.none
    else Option.none
  | [] => Option.none

/-- One match attempt of the time pattern
`(\d{1,2}:\d{2}(?:\s*[aApP][mM])?)`; the optional am/pm group is taken
greedily when present, and the whole group (including its whitespace) is
part of the capture. -/
def timeMatchAt (l : List Char) : Option (String × List Char) :=
  let (r1, l1) := takeRun isDigitChar l
  if r1.length = 0 || r1.length > 2 then Option.none else
  match l1 with
  | c :: d1 :: d2 :: l2 =>
    if c == ':' && isDigitChar d1 && isDigitChar d2 then
      let (sp, l3) := takeRun isSpaceChar l2
      match l3 with
      | a :: m :: l4 =>
        if (a == 'a' || a == 'A' || a == 'p' || a == 'P') &&
            (m == 'm' || m == 'M') then
          some (String.mk (r1 ++ c :: d1 :: d2 :: (sp ++ [a, m])), l4)
        else some (String.mk (r1 ++ [c, d1, d2]), l2)
      | _ => some (String.mk (r1 ++ [c, d1, d2]), l2)
    else Option.none
  | _ => Option.none

/-- The local-part character class `[a-zA-Z0-9._%+-]` of the email
pattern. -/
def emailLocalChar (c : Char) : Bool :=
  isLetterChar c || isDigitChar c || c == '.' || c == '_' || c == '%' ||
    c == '+' || c == '-'

/-- The domain character class `[a-zA-Z0-9.-]` of the email pattern. -/
def emailDomChar (c : Char) : Bool :=
  isLetterChar c || isDigitChar c || c == '.' || c == '-'

/-- Backtracking of `[a-zA-Z0-9.-]+\.[a-zA-Z]{2,}` over the maximal
domain run: the greedy `+` gives characters back one at a time, so the
first successful split has the longest possible part before a literal
dot followed by at least two letters; the letter run is taken greedily
and ends the pattern. -/
def emailSplit (dom : List Char) : Option (List Char × List Char × List Char) :=
  (List.range dom.length).reverse.findSome? (fun k =>
    if k = 0 then Option.none else
    match dom.drop k with
    | c :: t =>
      if c == '.' then
        let letters := t.takeWhile isLetterChar
        if letters.length ≥ 2 then
          some (dom.take k, letters, t.drop letters.length)
        else Option.none
      else Option.none
    | [] => Option.none)

/-- One match attempt of the email pattern
`([a-zA-Z0-9._%+-]+@[a-zA-Z0-9.-]+\.[a-zA-Z]{2,})`. -/
def emailMatchAt (l : List Char) : Option (String × List Char) :=
  let (loc, l1) := takeRun emailLocalChar l
  if loc.length = 0 then Option.none else
  match l1 with
  | a :: l2 =>
    if a == '@' then
      let (dom, l3) := takeRun emailDomChar l2
      match emailSplit dom with
      | some (d, tld, surplus) =>
        some (String.mk (loc ++ '@' :: (d ++ '.' :: tld)), surplus ++ l3)
      | Option.none => Option.none
    else Option.none
  | [] => Option.none

/-- One match attempt of the percentage pattern
`(\d{1,3}(?:\.\d+)?)\s*%`: a digit run longer than 3 fails at this
position (backtracking still faces a digit), the optional fraction is
taken greedily when a dot with at least one digit follows, and the
trailing whitespace and percent sign are outside the capture group. -/
def pctMatchAt (l : List Char) : Option (String × List Char) :=
  let (r1, l1) := takeRun isDigitChar l
  if r1.length = 0 || r1.length > 3 then Option.none else
  let (optPart, l2) :=
    match l1 with
    | c :: l1' =>
      if c == '.' then
        let (r2, l2') := takeRun isDigitChar l1'
        if r2.length = 0 then (([] : List Char), l1) else (c :: r2, l2')
      else (([] : List Char), l1)
    | [] => (([] : List Char), l1)
  let (_, l3) := takeRun isSpaceChar l2
  match l3 with
  | p :: l4 => if p == '%' then some (String.mk (r1 ++ optPart), l4) else Option.none
  | [] => Option.none

/-- The generic findall scan loop for the date, time, email and
percentage patterns, with fuel (each step consumes at least one
character, so `length` fuel is exact). -/
def scanFuel (m : List Char → Option (String × List Char)) :
    Nat → List Char → List String
  | 0, _ => []
  | _ + 1, [] => []
  | n + 1, c :: cs =>
    match m (c :: cs) with
    | some sr => sr.1 :: scanFuel m n sr.2
    | Option.none => scanFuel m n cs

/-- The findall loop for the number pattern `\b(\d+)\b`: the leading
word boundary consults the character before the current position, the
greedy `\d+` takes the whole digit run, and the trailing boundary
requires the next character (if any) not to be a word character;
backtracking inside the run cannot restore a failed trailing boundary,
so on failure the scan advances one character. -/
def numScanFuel : Nat → Option Char → List Char → List String
  | 0, _, _ => []
  | _ + 1, _, [] => []
  | n + 1, prev, c :: cs =>
    let boundaryBefore := match prev with
      | some p => !isWordChar p
      | Option.none => true
    if boundaryBefore && isDigitChar c then
      let run := (c :: cs).takeWhile isDigitChar
      let rest := (c :: cs).dropWhile isDigitChar
      match rest with
      | [] => [String.mk run]
      | nch :: _ =>
        if !isWordChar nch then
          String.mk run :: numScanFuel n (some (run.getLastD c)) rest
        else numScanFuel n (some c) cs
    else numScanFuel n (some c) cs

/-- The six entity patterns of `EntityExtractor.entity_patterns`, in
source order, as executable scanners equivalent to
`re.findall(pattern, text, re.IGNORECASE)` on the ASCII fragment. -/
def entityMatchers : List (String × (List Char → List String)) :=
  [("course_code", ccScanList),
   ("date", fun l => scanFuel dateMatchAt l.length l),
   ("time", fun l => scanFuel timeMatchAt l.length l),
   ("email", fun l => scanFuel emailMatchAt l.length l),
   ("percentage", fun l => scanFuel pctMatchAt l.length l),
   ("number", fun l => numScanFuel l.length Option.none l)]

/-- The static `course_names` table of `EntityExtractor`. -/
def course_names : List (String × String) :=
  [("IS621", "Agile and DevSecOps"),
   ("IS622", "Cloud Computing and Container Architecture"),
   ("IS623", "AI and Machine Learning"),
   ("IS624", "Big Data and Analytics"),
   ("IS625", "Software Quality Management")]

/-- The first phase of `extract_entities`: an entity type is present in
the result iff its pattern has at least one match (dict insertion order
follows the pattern order). -/
def rawEntities (t : List Char) : List (String × List String) :=
  entityMatchers.filterMap (fun nm =>
    let ms := nm.2 t
    if ms.isEmpty then Option.none else some (nm.1, ms))

/-- `EntityExtractor.extract_entities`: the per-pattern matches, plus the
derived `course_name` entry — each matched code is prefixed with the
literal `IS` and looked up in the static table, codes with no table
entry are silently dropped, and the key is added only when at least one
lookup succeeded. -/
def extract_entities (text : String) : List (String × List String) :=
  let raw := rawEntities text.data
  match alookup "course_code" raw with
  | some codes =>
    let names := codes.filterMap (fun c => alookup ("IS" ++ c) course_names)
    if names.isEmpty then raw else raw ++ [("course_name", names)]
  | Option.none => raw

/-- The occurrence of the course-code pattern at position `pre.length`:
the text decomposes as `pre`, then `I`/`i`, `S`/`s`, a whitespace run, a
digit triple, and a suffix. -/
def ccOccurrence (l pre sp : List Char) (c1 c2 d1 d2 d3 : Char)
    (suf : List Char) : Prop :=
  l = pre ++ c1 :: c2 :: (sp ++ d1 :: d2 :: d3 :: suf) ∧ isIc c1 = true ∧
    isSc c2 = true ∧ (∀ c ∈ sp, isSpaceChar c = true) ∧
    isDigitChar d1 = true ∧ isDigitChar d2 = true ∧ isDigitChar d3 = true

/- ### IntentClassifier (src/nlp/intent_classifier.py) -/

/-- Python `str.lower()` on the ASCII fragment: map upper-case letters
to lower-case. -/
def lowerChar (c : Char) : Char :=
  if 65 ≤ c.toNat ∧ c.toNat ≤ 90 then Char.ofNat (c.toNat + 32) else c

/-- Lower-case a string character-wise. -/
def strLower (s : String) : String := String.mk (s.data.map lowerChar)

/-- A pattern of the intent classifier: a literal substring (stored
lower-cased — the classifier lower-cases the text and matches with
`re.IGNORECASE`, so a lower-cased literal is exact) or the `IS\d{3}`
regex. -/
inductive IPat where
  | lit (s : String)
  | isCode
deriving DecidableEq, Repr

/-- `len(re.findall(literal, text))`: non-overlapping leftmost
occurrences of a literal pattern; fuel-structured (one unit per scan
position). -/
def litCountFuel : Nat → List Char → List Char → Nat
  | 0, _, _ => 0
  | _ + 1, _, [] => 0
  | n + 1, p, c :: cs =>
    if p ≠ [] ∧ p.isPrefixOf (c :: cs) then
      1 + litCountFuel n p ((c :: cs).drop p.length)
    else litCountFuel n p cs

/-- One match attempt of `IS\d{3}` (no whitespace) at the current
position, returning the remainder. -/
def isCodeMatchAt : List Char → Option (List Char)
  | c1 :: c2 :: d1 :: d2 :: d3 :: r =>
    if isIc c1 && isSc c2 && isDigitChar d1 && isDigitChar d2 &&
        isDigitChar d3 then some r
    else Option.none
  | _ => Option.none

/-- `len(re.findall(r"IS\d{3}", text, re.IGNORECASE))`. -/
def isCodeCountFuel : Nat → List Char → Nat
  | 0, _ => 0
  | _ + 1, [] => 0
  | n + 1, c :: cs =>
    match isCodeMatchAt (c :: cs) with
    | some r => 1 + isCodeCountFuel n r
    | Option.none => isCodeCountFuel n cs

/-- The match count of one pattern over the (lower-cased) text. -/
def ipatCount (t : List Char) : IPat → Nat
  | IPat.lit s => litCountFuel t.length s.data t
  | IPat.isCode => isCodeCountFuel t.length t

/-- The `intent_patterns` table of `IntentClassifier`, in source order,
with literals lower-cased. -/
def intentPatterns : List (String × List IPat) :=
  [("greeting", [IPat.lit "hello", IPat.lit "hi", IPat.lit "hey",
     IPat.lit "greetings", IPat.lit "good morning",
     IPat.lit "good afternoon", IPat.lit "good evening"]),
   ("farewell", [IPat.lit "bye", IPat.lit "goodbye", IPat.lit "see you",
     IPat.lit "talk to you later", IPat.lit "have a good day"]),
   ("help", [IPat.lit "help", IPat.lit "assist", IPat.lit "support",
     IPat.lit "guidance", IPat.lit "how do i"]),
   ("course_info", [IPat.lit "course", IPat.lit "class", IPat.lit "module",
     IPat.lit "subject", IPat.isCode, IPat.lit "information about",
     IPat.lit "tell me about", IPat.lit "details on"]),
   ("assignment", [IPat.lit "assignment", IPat.lit "homework",
     IPat.lit "project", IPat.lit "task", IPat.lit "submission",
     IPat.lit "deadline", IPat.lit "due date", IPat.lit "when is",
     IPat.lit "submit"]),
   ("grades", [IPat.lit "grade", IPat.lit "score", IPat.lit "mark",
     IPat.lit "performance", IPat.lit "result", IPat.lit "how did i do",
     IPat.lit "passed", IPat.lit "failed"]),
   ("schedule", [IPat.lit "schedule", IPat.lit "timetable",
     IPat.lit "calendar", IPat.lit "when", IPat.lit "what time",
     IPat.lit "date", IPat.lit "class time", IPat.lit "lecture",
     IPat.lit "session"]),
   ("learning_material", [IPat.lit "material", IPat.lit "document",
     IPat.lit "reading", IPat.lit "textbook", IPat.lit "note",
     IPat.lit "slide", IPat.lit "resource", IPat.lit "learn",
     IPat.lit "study"])]

/-- The raw score of an intent: the sum of the match counts of its
patterns. -/
def patsCount (t : List Char) (ps : List IPat) : Nat :=
  (ps.map (ipatCount t)).sum

/-- The normalized score `score / len(patterns)` (float division
modelled exactly on the rationals). -/
def scoreOf (t : List Char) (ps : List IPat) : ℚ :=
  (patsCount t ps : ℚ) / (ps.length : ℚ)

/-- The `scores` dict built by `classify`: only intents with a positive
raw score are entered, in `intent_patterns` iteration order. -/
def intentScores (t : List Char) : List (String × ℚ) :=
  intentPatterns.filterMap (fun ip =>
    if patsCount t ip.2 > 0 then some (ip.1, scoreOf t ip.2) else Option.none)

/-- Python `max(scores.items(), key=score)`: the running maximum is
replaced only on strict improvement, so the first item of maximal score
wins ties. -/
def pickMax : (String × ℚ) → List (String × ℚ) → String × ℚ
  | best, [] => best
  | best, x :: xs => pickMax (if x.2 > best.2 then x else best) xs

/-- `IntentClassifier.classify`: lower-case the text, score each intent,
and return the first highest-scoring intent with its score, or
`("unknown", 0.0)` when no intent scored above zero. -/
def classify (text : String) : String × ℚ :=
  match intentScores (strLower text).data with
  | [] => ("unknown", 0)
  | x :: xs => pickMax x xs

/- ### ComplexityClassifier: MultiPartQuestionHandler.is_complex_question -/

/-- Whether `sub` occurs as a contiguous block of `l`. -/
def containsSubAux : List Char → List Char → Bool
  | sub, [] => sub.isEmpty
  | sub, c :: cs => sub.isPrefixOf (c :: cs) || containsSubAux sub cs

/-- Python substring membership `sub in hay`. -/
def strContains (hay sub : String) : Bool := containsSubAux sub.data hay.data

/-- Python `len(message.split())`: the number of maximal nonspace runs
(splitting on whitespace, dropping empty pieces). -/
def wordCount (s : String) : Nat :=
  (s.data.foldl
    (fun acc c =>
      if isSpaceChar c then (acc.1, false)
      else (if acc.2 then acc.1 else acc.1 + 1, true))
    ((0 : Nat), false)).1

/-- Python `message.count('?')`. -/
def questionMarks (s : String) : Nat := s.data.count '?'

/-- The fixed `complex_phrases` list of `is_complex_question`, in source
order. -/
def complex_phrases : List String :=
  ["compare", "difference", "similar", "pros", "cons",
   "advantage", "disadvantage", "how would", "explain", "why",
   "multiple", "several", "various", "different", "ways",
   "also", "as well", "furthermore", "additional", "moreover",
   "career", "prospects", "future", "job", "work", "industry",
   "prioritize", "focus", "concentrate", "recommend", "suggest",
   "between", "among", "versus", "vs", "contrast", "relationship",
   "impact", "effect", "influence", "result", "outcome"]

/-- `MultiPartQuestionHandler.is_complex_question`, with the source's
sequential checks: the fixed trigger substrings (two case-sensitive, the
others on the lower-cased message), the word-count threshold (strictly
more than 10), more than one question mark, and the phrase list on the
lower-cased message. -/
def is_complex_question (message : String) : Bool :=
  if strContains message "AI and Machine Learning" ||
      strContains (strLower message) "data science" then true
  else if strContains (strLower message) "career" ||
      strContains (strLower message) "content" then true
  else if strContains message "DevSecOps" ||
      strContains message "traditional" then true
  else if wordCount message > 10 then true
  else if questionMarks message > 1 then true
  else if complex_phrases.any (fun p => strContains (strLower message) p) then
    true
  else false

/-- The trigger-substring disjunct of the complexity contract: the six
fixed substrings checked before the length and question-mark rules. -/
def hasTriggerSubstring (m : String) : Bool :=
  strContains m "AI and Machine Learning" ||
    strContains (strLower m) "data science" ||
    strContains (strLower m) "career" || strContains (strLower m) "content" ||
    strContains m "DevSecOps" || strContains m "traditional"

/-- The phrase-list disjunct of the complexity contract. -/
def hasComplexPhrase (m : String) : Bool :=
  complex_phrases.any (fun p => strContains (strLower m) p)

/- ### ClaudeAI (src/nlp/claude_integration.py) -/

/-- A document of the knowledge-base search result; the handler reads
`result.get('content', result.get('text', ''))`. -/
structure KBDoc where
  title : String
  content : Option String
  text : Option String
deriving DecidableEq, Repr

/-- The body of a knowledge-base response, parsed with the source's
defaults (`results` → `[]`, `has_knowledge` → `False`,
`highest_score` → `0`). -/
structure KBBody where
  results : List KBDoc
  has_knowledge : Bool
  highest_score : ℚ
deriving DecidableEq, Repr

/-- A completed knowledge-base HTTP exchange: status code and body. -/
structure KBReply where
  status : Nat
  body : KBBody
deriving DecidableEq, Repr

/-- The fixed system prompt of `ClaudeAI` (indentation of the Python
triple-quoted literal flattened). -/
def system_prompt : String :=
  "You are an AI assistant for SMU Master's Program students. Your role is to provide helpful, accurate information about courses, assignments, and learning materials.\n" ++
  "Focus on providing educational guidance and support. Keep your responses concise, informative, and tailored to academic contexts.\n" ++
  "When you don't know specific information about SMU programs, you should indicate this clearly rather than making up information.\n" ++
  "For course-specific queries, you have knowledge about the following courses:\n" ++
  "- IS621: Agile and DevSecOps\n" ++
  "- IS622: Cloud Computing and Container Architecture\n" ++
  "- IS623: AI and Machine Learning\n" ++
  "- IS624: Big Data and Analytics\n" ++
  "- IS625: Software Quality Management"

/-- The `knowledge_context` assembly: when results are present, a
header, one block of title and content per result, and the closing
instruction; the empty string otherwise. -/
def assembleKnowledge (results : List KBDoc) : String :=
  if results.isEmpty then ""
  else
    (results.foldl
      (fun acc r =>
        acc ++ "--- " ++ r.title ++ " ---\n" ++
          (r.content.getD (r.text.getD "")) ++ "\n\n")
      "Here is some relevant information from SMU courses:\n\n") ++
      "Please use this information to inform your response.\n\n"

/-- The knowledge-search phase of `handle_multi_part_question`: a raised
request (`Option.none`, covering timeout and connection failure) or a
non-200 status leaves the fail-open defaults `knowledge_found = False`,
`highest_score = 0` and no knowledge context; a 200 reply supplies its
fields, with the context block assembled whenever results are
present. -/
def kbOutcome (kb : Option KBReply) : Bool × ℚ × String :=
  match kb with
  | Option.none => (false, 0, "")
  | some reply =>
    if reply.status = 200 then
      (reply.body.has_knowledge, reply.body.highest_score,
        assembleKnowledge reply.body.results)
    else (false, 0, "")

/-- The `programming_keywords` allowlist. -/
def programming_keywords : List String :=
  ["code", "program", "function", "algorithm", "python", "java",
   "javascript"]

/-- The `basic_questions` allowlist. -/
def basic_questions : List String :=
  ["hello", "hi", "how are you", "thank", "goodbye", "bye",
   "who are you", "what can you do", "help"]

/-- The observable outcome of `handle_multi_part_question`: either the
fixed rejection string without any model call, or a call of
`send_message` with the current message, the stored conversation history
and the (possibly knowledge-augmented) system prompt. -/
inductive ModelDecision where
  | reject (resp : String)
  | callModel (msg : String) (history : List ConvTurn) (systemPrompt : String)
deriving DecidableEq, Repr

/-- `context.get('claude_conversation', [])`. -/
def historyOf (context : Record) : List ConvTurn :=
  match alookup "claude_conversation" context with
  | some (Value.conv h) => h
  | _ => []

/-- `ClaudeAI.handle_multi_part_question` (gating and prompt assembly;
the network send itself is the caller's interpretation of `callModel`):
reject exactly when no knowledge was found or the score is strictly
below 65 and the message matches neither the programming-keyword nor the
basic-conversational allowlist; otherwise call the model with the stored
history and the system prompt extended by the knowledge context when one
was assembled. -/
def handle_multi_part_question (kb : Option KBReply) (message : String)
    (context : Record) : ModelDecision :=
  let out := kbOutcome kb
  let is_technical :=
    programming_keywords.any (fun k => strContains (strLower message) k)
  let is_basic :=
    basic_questions.any (fun b => strContains (strLower message) (strLower b))
  let rejected := (!out.1 || decide (out.2.1 < 65)) && !is_technical && !is_basic
  if rejected then ModelDecision.reject "I don't have that in my knowledge."
  else
    ModelDecision.callModel message (historyOf context)
      (system_prompt ++ (if out.2.2 ≠ "" then "\n\n" ++ out.2.2 else ""))

/- ### MultiPartQuestionHandler (src/nlp/Multi_part_Question_Handler.py) -/

/-- Python truthiness of a context value (used by
`if active_flow and ...`). -/
def pyTruthy : Value → Bool
  | Value.none => false
  | Value.str s => !s.isEmpty
  | Value.int n => n != 0
  | Value.rat q => q != 0
  | Value.entmap m => !m.isEmpty
  | Value.conv h => !h.isEmpty
  | Value.ref _ => true

/-- `context.get(key)`: `None` when the key is absent. -/
def rget (r : Record) (k : String) : Value :=
  (alookup k r).getD Value.none

/-- `context.get('last_entities', {})`. -/
def entitiesOf (r : Record) : List (String × List String) :=
  match alookup "last_entities" r with
  | some (Value.entmap m) => m
  | _ => []

/-- `entities.get('course_code', [])`. -/
def codesOf (m : List (String × List String)) : List String :=
  (alookup "course_code" m).getD []

/-- The static table of `_get_course_info`. -/
def course_info_table : List (String × String) :=
  [("IS621", "IS621: Agile and DevSecOps - This course covers agile methodologies and DevSecOps practices for modern software development."),
   ("IS622", "IS622: Cloud Computing and Container Architecture - This course covers cloud computing platforms and container technologies."),
   ("IS623", "IS623: AI and Machine Learning - This course covers artificial intelligence concepts and machine learning techniques."),
   ("IS624", "IS624: Big Data and Analytics - This course covers big data processing and analytics methodologies."),
   ("IS625", "IS625: Software Quality Management - This course covers software quality assurance and testing methodologies.")]

/-- `_get_course_info`: table lookup with the catalog fallback
message. -/
def get_course_info (course_code : String) : String :=
  (alookup course_code course_info_table).getD
    ("I don't have information about " ++ course_code ++
      ". Please check the SMU course catalog.")

/-- The external collaborators and configuration of one
`process_message` turn: the auth-service verdict, whether Claude was
initialised, the knowledge-base outcome, and the external model as a
function from request (message, history, system prompt) to reply
text. -/
structure Env where
  authenticated : Bool
  claude_enabled : Bool
  kb : Option KBReply
  send : String → List ConvTurn → String → String

/-- `ClaudeAI.handle_multi_part_question` followed by `send_message`:
the rejection short-circuits, otherwise the external model's reply is
returned.  The context store is not touched — the function neither
appends the new turns to `claude_conversation` nor writes anything
back. -/
def claude_response (env : Env) (message : String) (context : Record) :
    String :=
  match handle_multi_part_question env.kb message context with
  | ModelDecision.reject resp => resp
  | ModelDecision.callModel m h s => env.send m h s

/-- `_handle_complex_question`. -/
def handle_complex_question (env : Env) (cm : ContextManager)
    (message : String) (context : Record) : ContextManager × Option String :=
  if !env.claude_enabled then
    (cm, some "I'm not currently able to handle complex questions. Please try asking a more specific question about courses, assignments, or learning materials.")
  else (cm, some (claude_response env message context))

/-- `_handle_course_info_flow`: step `None` answers from the last-turn
entities or prompts for a code and sets step 1; step 1 re-extracts from
the current message, answers and clears on success, and re-prompts
without touching the store otherwise; any other step falls off the
Python function (modelled as response `none`). -/
def handle_course_info_flow (cm : ContextManager) (uid message : String)
    (context : Record) (now : Int) : ContextManager × Option String :=
  match rget context "active_step" with
  | Value.none =>
    match codesOf (entitiesOf context) with
    | code :: _ =>
      let cm1 := update_context cm uid "active_flow" Value.none now
      let cm2 := update_context cm1 uid "active_step" Value.none now
      (cm2, some (get_course_info ("IS" ++ code)))
    | [] =>
      let cm1 := update_context cm uid "active_flow"
        (Value.str "course_info") now
      let cm2 := update_context cm1 uid "active_step" (Value.int 1) now
      (cm2, some "Which course would you like information about? Please provide the course code (e.g., IS621).")
  | Value.int 1 =>
    match codesOf (extract_entities message) with
    | code :: _ =>
      let cm1 := update_context cm uid "active_flow" Value.none now
      let cm2 := update_context cm1 uid "active_step" Value.none now
      (cm2, some (get_course_info ("IS" ++ code)))
    | [] =>
      (cm, some "I couldn't identify a course code. Please provide a valid course code like IS621.")
  | _ => (cm, Option.none)

/-- `_handle_assignment_flow`. -/
def handle_assignment_flow (cm : ContextManager) (uid message : String)
    (context : Record) (now : Int) : ContextManager × Option String :=
  match rget context "active_step" with
  | Value.none =>
    match codesOf (entitiesOf context) with
    | code :: _ =>
      let course_code := "IS" ++ code
      let cm1 := update_context cm uid "current_course"
        (Value.str course_code) now
      let cm2 := update_context cm1 uid "active_flow"
        (Value.str "assignment") now
      let cm3 := update_context cm2 uid "active_step" (Value.int 2) now
      (cm3, some ("For " ++ course_code ++
        ", do you want to know about assignments, projects, or exams?"))
    | [] =>
      let cm1 := update_context cm uid "active_flow"
        (Value.str "assignment") now
      let cm2 := update_context cm1 uid "active_step" (Value.int 1) now
      (cm2, some "Which course's assignments are you interested in? Please provide the course code (e.g., IS621).")
  | Value.int 1 =>
    match codesOf (extract_entities message) with
    | code :: _ =>
      let course_code := "IS" ++ code
      let cm1 := update_context cm uid "current_course"
        (Value.str course_code) now
      let cm2 := update_context cm1 uid "active_step" (Value.int 2) now
      (cm2, some ("For " ++ course_code ++
        ", do you want to know about assignments, projects, or exams?"))
    | [] =>
      (cm, some "I couldn't identify a course code. Please provide a valid course code like IS621.")
  | Value.int 2 =>
    let assignment_type := strLower message
    let course_code :=
      match alookup "current_course" context with
      | some (Value.str s) => s
      | _ => "unknown"
    let cm1 := update_context cm uid "active_flow" Value.none now
    let cm2 := update_context cm1 uid "active_step" Value.none now
    if strContains assignment_type "assignment" then
      (cm2, some ("For " ++ course_code ++ ", there are 2 assignments worth 20% of your final grade. The first assignment is due on March 15th, and the second is due on April 10th."))
    else if strContains assignment_type "project" then
      (cm2, some ("For " ++ course_code ++ ", there is a group project worth 35% of your final grade. The project proposal is due on March 1st, and the final submission is due on April 20th."))
    else if strContains assignment_type "exam" then
      (cm2, some ("For " ++ course_code ++ ", there is a final exam worth 45% of your final grade. The exam is scheduled for May 5th."))
    else
      (cm2, some ("For " ++ course_code ++ ", there are assignments (20%), a group project (35%), and a final exam (45%). Which would you like to know more about?"))
  | _ => (cm, Option.none)

/-- `_handle_grades_flow`: a fixed deflection. -/
def handle_grades_flow (cm : ContextManager) (uid message : String)
    (context : Record) (now : Int) : ContextManager × Option String :=
  (cm, some "To check your grades, please log into the SMU student portal. I don't have access to your personal grade information.")

/-- `_handle_learning_material_flow`. -/
def handle_learning_material_flow (cm : ContextManager) (uid message : String)
    (context : Record) (now : Int) : ContextManager × Option String :=
  match rget context "active_step" with
  | Value.none =>
    match codesOf (entitiesOf context) with
    | code :: _ =>
      let course_code := "IS" ++ code
      let course_name := (alookup course_code course_names).getD "Unknown Course"
      let cm1 := update_context cm uid "active_flow" Value.none now
      let cm2 := update_context cm1 uid "active_step" Value.none now
      (cm2, some ("For " ++ course_code ++ " (" ++ course_name ++ "), you can find lecture slides, reading materials, and tutorial questions on the SMU eLearning portal. Would you like me to recommend additional resources for this course?"))
    | [] =>
      let cm1 := update_context cm uid "active_flow"
        (Value.str "learning_material") now
      let cm2 := update_context cm1 uid "active_step" (Value.int 1) now
      (cm2, some "Which course's learning materials are you interested in? Please provide the course code (e.g., IS621).")
  | Value.int 1 =>
    match codesOf (extract_entities message) with
    | code :: _ =>
      let course_code := "IS" ++ code
      let course_name := (alookup course_code course_names).getD "Unknown Course"
      let cm1 := update_context cm uid "active_flow" Value.none now
      let cm2 := update_context cm1 uid "active_step" Value.none now
      (cm2, some ("For " ++ course_code ++ " (" ++ course_name ++ "), you can find lecture slides, reading materials, and tutorial questions on the SMU eLearning portal. Would you like me to recommend additional resources for this course?"))
    | [] =>
      (cm, some "I couldn't identify a course code. Please provide a valid course code like IS621.")
  | _ => (cm, Option.none)

/-- The `flows` dict: dispatch a flow name to its handler, `none` when
the name is unknown (`flows.get` returning `None`). -/
def dispatchFlow (env : Env) (name : String) (cm : ContextManager)
    (uid message : String) (context : Record) (now : Int) :
    Option (ContextManager × Option String) :=
  if name = "course_info" then
    some (handle_course_info_flow cm uid message context now)
  else if name = "assignment" then
    some (handle_assignment_flow cm uid message context now)
  else if name = "grades" then
    some (handle_grades_flow cm uid message context now)
  else if name = "learning_material" then
    some (handle_learning_material_flow cm uid message context now)
  else if name = "complex_question" then
    some (handle_complex_question env cm message context)
  else Option.none

/-- `MultiPartQuestionHandler.process_message` — the second definition
in the class body, which overrides the first one: the authentication
gate, active-flow dispatch, complexity escalation, then intent-based
processing.  The pre-update `context` snapshot is what reaches the flow
handlers, so a freshly dispatched flow reads the previous turn's
entities. -/
def process_authenticated (env : Env) (cm0 : ContextManager)
    (context : Record) (uid message : String) (now : Int) :
    ContextManager × Option String :=
  let active_flow := rget context "active_flow"
  let active_step := rget context "active_step"
  let dispatched :=
    if pyTruthy active_flow ∧ active_step ≠ Value.none then
      match active_flow with
      | Value.str name => dispatchFlow env name cm0 uid message context now
      | _ => Option.none
    else Option.none
  match dispatched with
  | some result => result
  | Option.none =>
    if is_complex_question message && env.claude_enabled then
      let cm1 := set_context cm0 uid
        [("last_intent", Value.str "complex_question"),
         ("last_message", Value.str message)] now
      handle_complex_question env cm1 message context
    else
      let intent := classify message
      let entities := extract_entities message
      let cm1 := set_context cm0 uid
        [("last_intent", Value.str intent.1),
         ("last_confidence", Value.rat intent.2),
         ("last_entities", Value.entmap entities)] now
      match dispatchFlow env intent.1 cm1 uid message context now with
      | some result => result
      | Option.none =>
        if intent.2 < 0.2 ∧ env.claude_enabled then
          handle_complex_question env cm1 message context
        else
          (cm1, some ("I'll help you with your '" ++ intent.1 ++
            "' question about SMU courses."))

/-- The authentication gate wrapped around the turn: the read (and its
lazy-expiry side effect) feeds the rest of the turn. -/
def process_message (env : Env) (cm : ContextManager) (uid message : String)
    (now : Int) : ContextManager × Option String :=
  if !env.authenticated then
    (cm, some ("Welcome to the SMU Master's Program AI Assistant!\n\nTo use this bot, you need to authenticate with your SMU email address.\n\nPlease click this link to authenticate: http://localhost:5050/login/" ++ uid))
  else
    let gc := get_context cm uid now
    process_authenticated env gc.1 (gc.2.getD []) uid message now

/-- The stored `claude_conversation` value of a user, if any. -/
def convOf (cm : ContextManager) (uid : String) : Option Value :=
  match alookup uid cm.contexts with
  | some rec => alookup "claude_conversation" rec
  | Option.none => Option.none

/- ### Association-list lemmas -/

theorem alookup_aset_self {κ α : Type} [DecidableEq κ] (k : κ) (v : α)
    (l : List (κ × α)) : alookup k (aset k v l) = some v := by
  induction l with
  | nil => simp [aset, alookup]
  | cons hd tl ih =>
    by_cases h : hd.1 = k
    · simp [aset, h, alookup]
    · simp [aset, h, alookup, ih]

theorem alookup_aset_ne {κ α : Type} [DecidableEq κ] {k k' : κ} (v : α)
    (l : List (κ × α)) (h : k' ≠ k) :
    alookup k' (aset k v l) = alookup k' l := by
  have hne : ¬ k = k' := fun e => h e.symm
  induction l with
  | nil => simp [aset, alookup, hne]
  | cons hd tl ih =>
    by_cases hk : hd.1 = k
    · simp [aset, hk, alookup, hne]
    · by_cases hk' : hd.1 = k'
      · simp [aset, hk, alookup, hk', h]
      · simp [aset, hk, alookup, hk', ih]

theorem alookup_rupdate_not_mem {k : String} {p : Record} (r : Record)
    (h : k ∉ keys p) : alookup k (rupdate r p) = alookup k r := by
  induction p generalizing r with
  | nil => simp [rupdate]
  | cons hd tl ih =>
    have hne : k ≠ hd.1 := by
      intro e; exact h (by simp [keys, e])
    have htl : k ∉ keys tl := by
      intro m; exact h (by simp [keys] at m ⊢; exact Or.inr m)
    show alookup k (rupdate (aset hd.1 hd.2 r) tl) = alookup k r
    rw [ih (aset hd.1 hd.2 r) htl, alookup_aset_ne _ _ hne]

theorem alookup_rupdate_mem {k : String} {v : Value} {p : Record}
    (r : Record) (hmem : (k, v) ∈ p) (hnd : (keys p).Nodup) :
    alookup k (rupdate r p) = some v := by
  induction p generalizing r with
  | nil => cases hmem
  | cons hd tl ih =>
    have hnd' : hd.1 ∉ keys tl ∧ (keys tl).Nodup := by
      simpa [keys] using hnd
    rcases List.mem_cons.mp hmem with heq | htl
    · subst heq
      show alookup k (rupdate (aset k v r) tl) = some v
      rw [alookup_rupdate_not_mem _ hnd'.1, alookup_aset_self]
    · exact ih (aset hd.1 hd.2 r) htl hnd'.2

theorem alookup_stripInternal {k : String} (r : Record)
    (h : ¬ isInternalKey k) :
    alookup k (stripInternal r) = alookup k r := by
  induction r with
  | nil => rfl
  | cons hd tl ih =>
    by_cases hk : hd.1 = k
    · subst hk
      simp [stripInternal, List.filter, h, alookup]
    · by_cases hint : isInternalKey hd.1
      · simp [stripInternal, List.filter, hint, alookup, hk] at ih ⊢
        exact ih
      · simp [stripInternal, List.filter, hint, alookup, hk] at ih ⊢
        exact ih

theorem alookup_stripInternal_internal {k : String} (r : Record)
    (h : isInternalKey k) : alookup k (stripInternal r) = Option.none := by
  induction r with
  | nil => rfl
  | cons hd tl ih =>
    by_cases hhd : isInternalKey hd.1
    · simpa [stripInternal, List.filter, hhd] using ih
    · have hne : hd.1 ≠ k := fun e => hhd (e ▸ h)
      simpa [stripInternal, List.filter, hhd, alookup, hne] using ih

theorem keys_stripInternal {k : String} (r : Record)
    (h : k ∈ keys (stripInternal r)) : ¬ isInternalKey k := by
  have h' : ∃ v, (k, v) ∈ stripInternal r := by simpa [keys] using h
  rcases h' with ⟨v, hmem⟩
  have h2 := (List.mem_filter.mp hmem).2
  simpa using h2

theorem alookup_filter_ne {α : Type} (uid : String)
    (l : List (String × α)) :
    alookup uid (l.filter (fun p => p.1 ≠ uid)) = Option.none := by
  induction l with
  | nil => rfl
  | cons hd tl ih =>
    by_cases h : hd.1 = uid
    · simpa [List.filter, h] using ih
    · simpa [List.filter, h, alookup] using ih

theorem keys_internal_ne {k : String} (h : ¬ isInternalKey k) :
    k ≠ "_last_updated" := by
  intro e; subst e; exact h (by decide)

/- ### Claim C3: context expiry -/

/-- Claim C3: `get_context` never returns a record whose age strictly
exceeds the expiry window; when it reads an expired record it physically
deletes it from the store and returns absence (expiry is evaluated on
this read, there is no background sweep operation in the embedding). -/
theorem c3_context_expiry (cm : ContextManager) (uid : String) (now : Int) :
    (∀ r, (get_context cm uid now).2 = some r →
      ∃ rec, alookup uid cm.contexts = some rec ∧
        now - lastUpdated rec ≤ cm.expiry_seconds ∧ r = stripInternal rec) ∧
    (∀ rec, alookup uid cm.contexts = some rec →
      now - lastUpdated rec > cm.expiry_seconds →
      get_context cm uid now = (clear_context cm uid, Option.none) ∧
      alookup uid (clear_context cm uid).contexts = Option.none) := by
  constructor
  · intro r hr
    unfold get_context at hr
    cases hrec : alookup uid cm.contexts with
    | none => rw [hrec] at hr; cases hr
    | some rec =>
      rw [hrec] at hr
      by_cases hexp : now - lastUpdated rec > cm.expiry_seconds
      · simp [hexp] at hr
      · refine ⟨rec, rfl, by omega, ?_⟩
        simp [hexp] at hr
        exact hr.symm
  · intro rec hrec hexp
    refine ⟨?_, ?_⟩
    · unfold get_context
      rw [hrec]
      simp [hexp]
    · exact alookup_filter_ne uid cm.contexts

/-- Witness for C3 at a concrete expired store. -/
theorem c3_context_expiry_witness :
    get_context ⟨[("u", [("_last_updated", Value.int 0)])], 600⟩ "u" 1000 =
      (clear_context ⟨[("u", [("_last_updated", Value.int 0)])], 600⟩ "u",
        Option.none) ∧
    alookup "u"
      (clear_context ⟨[("u", [("_last_updated", Value.int 0)])], 600⟩
        "u").contexts = Option.none :=
  (c3_context_expiry ⟨[("u", [("_last_updated", Value.int 0)])], 600⟩
    "u" 1000).2 [("_last_updated", Value.int 0)] rfl (by decide)

/- ### Claim C7: set_context merge round-trip -/

/-- Claim C7: after `set_context(u, p1)` then `set_context(u, p2)`, a
`get_context(u)` within the expiry window returns a mapping holding every
key of `p2` with its `p2` value and every key of `p1` not overridden by
`p2` with its `p1` value; `set_context` creates the record when absent
and refreshes `_last_updated` (here to `now2`, which is what the expiry
check reads). -/
theorem c7_set_set_get_merge (cm : ContextManager) (uid : String)
    (p1 p2 : Record) (now1 now2 now3 : Int)
    (h1 : (keys p1).Nodup) (h2 : (keys p2).Nodup)
    (hu1 : ∀ k ∈ keys p1, ¬ isInternalKey k)
    (hu2 : ∀ k ∈ keys p2, ¬ isInternalKey k)
    (hexp : now3 - now2 ≤ cm.expiry_seconds) :
    ∃ r, (get_context (set_context (set_context cm uid p1 now1) uid p2 now2)
        uid now3).2 = some r ∧
      (∀ k v, (k, v) ∈ p2 → alookup k r = some v) ∧
      (∀ k v, (k, v) ∈ p1 → k ∉ keys p2 → alookup k r = some v) := by
  set old := (alookup uid cm.contexts).getD [] with hold
  set r1 := aset "_last_updated" (Value.int now1) (rupdate old p1) with hr1
  set r2 := aset "_last_updated" (Value.int now2)
      (rupdate r1 p2) with hr2
  have hstore1 :
      (set_context cm uid p1 now1).contexts = aset uid r1 cm.contexts := rfl
  have hlook1 :
      alookup uid (set_context cm uid p1 now1).contexts = some r1 := by
    rw [hstore1]; exact alookup_aset_self _ _ _
  have hstore2 :
      (set_context (set_context cm uid p1 now1) uid p2 now2).contexts =
        aset uid r2 (set_context cm uid p1 now1).contexts := by
    show aset uid
        (aset "_last_updated" (Value.int now2)
          (rupdate ((alookup uid (set_context cm uid p1 now1).contexts).getD [])
            p2))
        (set_context cm uid p1 now1).contexts = _
    rw [hlook1]
    rfl
  have hlook2 :
      alookup uid
        (set_context (set_context cm uid p1 now1) uid p2 now2).contexts =
        some r2 := by
    rw [hstore2]; exact alookup_aset_self _ _ _
  have hlast : lastUpdated r2 = now2 := by
    unfold lastUpdated
    rw [hr2, alookup_aset_self]
  have hexpiry :
      ¬ (now3 - lastUpdated r2 >
          (set_context (set_context cm uid p1 now1) uid p2 now2).expiry_seconds) := by
    have : (set_context (set_context cm uid p1 now1) uid p2 now2).expiry_seconds =
        cm.expiry_seconds := rfl
    rw [this, hlast]; omega
  refine ⟨stripInternal r2, ?_, ?_, ?_⟩
  · unfold get_context
    rw [hlook2]
    simp [hexpiry]
  · intro k v hkv
    have hnint : ¬ isInternalKey k := hu2 k (by simp [keys]; exact ⟨v, hkv⟩)
    rw [alookup_stripInternal _ hnint, hr2,
      alookup_aset_ne _ _ (keys_internal_ne hnint),
      alookup_rupdate_mem _ hkv h2]
  · intro k v hkv hnot2
    have hnint : ¬ isInternalKey k := hu1 k (by simp [keys]; exact ⟨v, hkv⟩)
    rw [alookup_stripInternal _ hnint, hr2,
      alookup_aset_ne _ _ (keys_internal_ne hnint),
      alookup_rupdate_not_mem _ hnot2, hr1,
      alookup_aset_ne _ _ (keys_internal_ne hnint),
      alookup_rupdate_mem _ hkv h1]

/-- Witness for C7: `set_context(u, {a: 1})` then `set_context(u, {b: 2})`
followed by a live read yields a record containing both keys. -/
theorem c7_set_set_get_merge_witness :
    ∃ r, (get_context
        (set_context (set_context mkContextManager "u"
          [("a", Value.int 1)] 0) "u" [("b", Value.int 2)] 0) "u" 10).2 =
        some r ∧
      (∀ k v, (k, v) ∈ [("b", Value.int 2)] → alookup k r = some v) ∧
      (∀ k v, (k, v) ∈ [("a", Value.int 1)] →
        k ∉ keys [("b", Value.int 2)] → alookup k r = some v) :=
  c7_set_set_get_merge mkContextManager "u" [("a", Value.int 1)]
    [("b", Value.int 2)] 0 0 10 (by decide) (by decide)
    (by decide) (by decide) (by decide)

/- ### Claim C10: update_context frame -/

/-- Claim C10: `update_context` on an absent user changes nothing at all;
on an existing record it sets exactly the given key, refreshes
`_last_updated`, and leaves every other key of that user and every other
user's record unchanged. -/
theorem c10_update_context_frame (cm : ContextManager) (uid k : String)
    (v : Value) (now : Int) :
    (alookup uid cm.contexts = Option.none →
      update_context cm uid k v now = cm) ∧
    (∀ rec, alookup uid cm.contexts = some rec → k ≠ "_last_updated" →
      alookup uid (update_context cm uid k v now).contexts =
        some (aset "_last_updated" (Value.int now) (aset k v rec)) ∧
      alookup k (aset "_last_updated" (Value.int now) (aset k v rec)) =
        some v ∧
      alookup "_last_updated"
        (aset "_last_updated" (Value.int now) (aset k v rec)) =
        some (Value.int now) ∧
      (∀ k', k' ≠ k → k' ≠ "_last_updated" →
        alookup k' (aset "_last_updated" (Value.int now) (aset k v rec)) =
          alookup k' rec) ∧
      (∀ uid', uid' ≠ uid →
        alookup uid' (update_context cm uid k v now).contexts =
          alookup uid' cm.contexts)) := by
  constructor
  · intro h
    unfold update_context
    rw [h]
  · intro rec hrec hk
    have hstore :
        (update_context cm uid k v now).contexts =
          aset uid (aset "_last_updated" (Value.int now) (aset k v rec))
            cm.contexts := by
      unfold update_context
      rw [hrec]
    refine ⟨?_, ?_, ?_, ?_, ?_⟩
    · rw [hstore]; exact alookup_aset_self _ _ _
    · rw [alookup_aset_ne _ _ hk, alookup_aset_self]
    · exact alookup_aset_self _ _ _
    · intro k' hk1 hk2
      rw [alookup_aset_ne _ _ hk2, alookup_aset_ne _ _ hk1]
    · intro uid' h
      rw [hstore, alookup_aset_ne _ _ h]

/- ### Claim C8: get_context isolation (shallow copy) -/

/-- Claim C8 counterexample: `dict.copy()` is a shallow copy, so the
mapping returned by `get_context` shares its nested mutable values with
the stored record: the returned record holds the same reference (address
0) as the stored one, and an in-place mutation of that shared list object
changes the observable content of the internally stored context — it is
not left unchanged, contrary to the claim. -/
theorem c8_counterexample :
    (∃ r, (get_context c8cm "u" 0).2 = some r ∧
      alookup "last_entities" r = some (Value.ref 0)) ∧
    alookup "u" (get_context c8cm "u" 0).1.contexts =
      some [("last_entities", Value.ref 0), ("_last_updated", Value.int 0)] ∧
    recordView (heapWrite c8heap 0 ["999"])
        [("last_entities", Value.ref 0), ("_last_updated", Value.int 0)] ≠
      recordView c8heap
        [("last_entities", Value.ref 0), ("_last_updated", Value.int 0)] := by
  refine ⟨⟨[("last_entities", Value.ref 0)], by decide, by decide⟩, by decide,
    by decide⟩

/-- Claim C8 amended: on a live record `get_context` leaves the store
unchanged and returns a top-level copy of the record with every internal
(underscore-prefixed) key stripped, preserving the values of all other
keys; the copy is shallow, so every nested mutable reference of the
returned mapping is the very same address as in the stored record (hence
only top-level mutation of the returned mapping is isolated; mutating a
shared nested object is visible in the stored context, as the
counterexample shows). -/
theorem c8_get_context_shallow_copy (cm : ContextManager) (uid : String)
    (now : Int) (rec : Record) (hrec : alookup uid cm.contexts = some rec)
    (hlive : ¬ now - lastUpdated rec > cm.expiry_seconds) :
    (get_context cm uid now).1 = cm ∧
    ∃ r, (get_context cm uid now).2 = some r ∧
      (∀ k, k ∈ keys r → ¬ isInternalKey k) ∧
      (∀ k, ¬ isInternalKey k → alookup k r = alookup k rec) ∧
      (∀ k a, alookup k r = some (Value.ref a) →
        alookup k rec = some (Value.ref a)) := by
  have hget : get_context cm uid now = (cm, some (stripInternal rec)) := by
    unfold get_context
    rw [hrec]
    simp [hlive]
  refine ⟨by rw [hget], stripInternal rec, by rw [hget], ?_, ?_, ?_⟩
  · intro k hk
    exact keys_stripInternal rec hk
  · intro k hk
    exact alookup_stripInternal rec hk
  · intro k a hka
    have hnint : ¬ isInternalKey k := by
      by_contra hint
      rw [alookup_stripInternal_internal rec (by simpa using hint)] at hka
      cases hka
    rw [← alookup_stripInternal rec hnint]
    exact hka

/-- Witness for the amended C8 at a concrete live record. -/
theorem c8_get_context_shallow_copy_witness :
    (get_context c8cm "u" 0).1 = c8cm ∧
    ∃ r, (get_context c8cm "u" 0).2 = some r ∧
      (∀ k, k ∈ keys r → ¬ isInternalKey k) ∧
      (∀ k, ¬ isInternalKey k → alookup k r =
        alookup k [("last_entities", Value.ref 0),
          ("_last_updated", Value.int 0)]) ∧
      (∀ k a, alookup k r = some (Value.ref a) →
        alookup k [("last_entities", Value.ref 0),
          ("_last_updated", Value.int 0)] = some (Value.ref a)) :=
  c8_get_context_shallow_copy c8cm "u" 0
    [("last_entities", Value.ref 0), ("_last_updated", Value.int 0)]
    rfl (by decide)

/-- Witness for C10 at a concrete store holding one record. -/
theorem c10_update_context_frame_witness :
    alookup "u"
      (update_context ⟨[("u", [("x", Value.int 5)])], 600⟩ "u" "k"
        (Value.int 7) 3).contexts =
      some (aset "_last_updated" (Value.int 3)
        (aset "k" (Value.int 7) [("x", Value.int 5)])) ∧
    alookup "k"
      (aset "_last_updated" (Value.int 3)
        (aset "k" (Value.int 7) [("x", Value.int 5)])) =
      some (Value.int 7) :=
  have h := (c10_update_context_frame ⟨[("u", [("x", Value.int 5)])], 600⟩
      "u" "k" (Value.int 7) 3).2 [("x", Value.int 5)] rfl (by decide)
  ⟨h.1, h.2.1⟩

/- ### Entity-extraction lemmas -/

theorem dropWhile_length_le_self (p : Char → Bool) (l : List Char) :
    (l.dropWhile p).length ≤ l.length := by
  have h := congrArg List.length (List.takeWhile_append_dropWhile p l)
  simp only [List.length_append] at h
  omega

theorem ccMatchAt_some {l : List Char} {sr : String × List Char}
    (h : ccMatchAt l = some sr) :
    ∃ a1 a2 sp e1 e2 e3, l = a1 :: a2 :: (sp ++ e1 :: e2 :: e3 :: sr.2) ∧
      isIc a1 = true ∧ isSc a2 = true ∧
      (∀ c ∈ sp, isSpaceChar c = true) ∧
      isDigitChar e1 = true ∧ isDigitChar e2 = true ∧
      isDigitChar e3 = true ∧ sr.1 = String.mk [e1, e2, e3] := by
  obtain ⟨s, r⟩ := sr
  match l with
  | [] => simp [ccMatchAt] at h
  | [c] => simp [ccMatchAt] at h
  | c1 :: c2 :: rest =>
    simp only [ccMatchAt] at h
    by_cases hi : isIc c1 && isSc c2
    · rw [if_pos hi] at h
      rcases hdrop : rest.dropWhile isSpaceChar with - | ⟨d1, - | ⟨d2, - | ⟨d3, r2⟩⟩⟩
      · simp [hdrop] at h
      · simp [hdrop] at h
      · simp [hdrop] at h
      · by_cases hdg : isDigitChar d1 && isDigitChar d2 && isDigitChar d3
        · have h' : some (String.mk [d1, d2, d3], r2) = some (s, r) := by
            rw [← h, hdrop]
            simp [hdg]
          have hs : s = String.mk [d1, d2, d3] := by
            injection h' with h''
            exact (congrArg Prod.fst h'').symm
          have hr : r = r2 := by
            injection h' with h''
            exact (congrArg Prod.snd h'').symm
          have hi' : isIc c1 = true ∧ isSc c2 = true := by simpa using hi
          have hdg' : isDigitChar d1 = true ∧ isDigitChar d2 = true ∧
              isDigitChar d3 = true := by simpa [and_assoc] using hdg
          refine ⟨c1, c2, rest.takeWhile isSpaceChar, d1, d2, d3, ?_, ?_, ?_,
            ?_, ?_, ?_, ?_, ?_⟩
          · have htw := List.takeWhile_append_dropWhile isSpaceChar rest
            rw [hdrop] at htw
            simp only [hr]
            rw [htw]
          · exact hi'.1
          · exact hi'.2
          · intro c hc; exact List.mem_takeWhile_imp hc
          · exact hdg'.1
          · exact hdg'.2.1
          · exact hdg'.2.2
          · exact hs
        · simp [hdrop, hdg] at h
    · rw [if_neg hi] at h; cases h

theorem ccMatchAt_length {l : List Char} {sr : String × List Char}
    (h : ccMatchAt l = some sr) : sr.2.length < l.length := by
  obtain ⟨a1, a2, sp, e1, e2, e3, hl, -⟩ := ccMatchAt_some h
  rw [hl]
  simp [List.length_append]
  omega

theorem ccScanFuel_irrel :
    ∀ (n m : Nat) (l : List Char), l.length ≤ n → l.length ≤ m →
      ccScanFuel n l = ccScanFuel m l := by
  intro n
  induction n with
  | zero =>
    intro m l hn _
    have hl : l = [] := List.length_eq_zero.mp (Nat.le_zero.mp hn)
    subst hl
    cases m <;> rfl
  | succ n ih =>
    intro m l hn hm
    cases l with
    | nil => cases m <;> rfl
    | cons c cs =>
      cases m with
      | zero => simp at hm
      | succ m' =>
        cases hmm : ccMatchAt (c :: cs) with
        | none =>
          simp only [ccScanFuel, hmm]
          exact ih m' cs (by simp at hn; omega) (by simp at hm; omega)
        | some sr =>
          have hlt := ccMatchAt_length hmm
          simp only [List.length_cons] at hlt
          simp only [ccScanFuel, hmm]
          rw [ih m' sr.2 (by simp at hn; omega) (by simp at hm; omega)]

theorem ccScanList_cons_some {c : Char} {cs : List Char}
    {sr : String × List Char} (h : ccMatchAt (c :: cs) = some sr) :
    ccScanList (c :: cs) = sr.1 :: ccScanList sr.2 := by
  have hlt := ccMatchAt_length h
  simp only [List.length_cons] at hlt
  unfold ccScanList
  simp only [List.length_cons, ccScanFuel, h]
  rw [ccScanFuel_irrel cs.length sr.2.length sr.2 (by omega) le_rfl]

theorem ccScanList_cons_none {c : Char} {cs : List Char}
    (h : ccMatchAt (c :: cs) = Option.none) :
    ccScanList (c :: cs) = ccScanList cs := by
  unfold ccScanList
  simp only [List.length_cons, ccScanFuel, h]

theorem dropWhile_all_append {p : Char → Bool} {sp : List Char}
    (h : ∀ c ∈ sp, p c = true) {d : Char} (hd : p d = false)
    (rest : List Char) :
    List.dropWhile p (sp ++ d :: rest) = d :: rest := by
  induction sp with
  | nil => simp [List.dropWhile_cons, hd]
  | cons c cs ih =>
    have hc : p c = true := h c (by simp)
    simp only [List.cons_append, List.dropWhile_cons, hc, if_true]
    exact ih (fun x hx => h x (by simp [hx]))

theorem not_space_of_digit {c : Char} (h : isDigitChar c = true) :
    isSpaceChar c = false := by
  simp [isDigitChar] at h
  simp [isSpaceChar]
  omega

theorem not_isIc_of_isSc {c : Char} (h : isSc c = true) : isIc c = false := by
  simp [isSc] at h
  simp [isIc]
  omega

theorem not_isIc_of_space {c : Char} (h : isSpaceChar c = true) :
    isIc c = false := by
  simp [isSpaceChar] at h
  simp [isIc]
  omega

theorem not_isIc_of_digit {c : Char} (h : isDigitChar c = true) :
    isIc c = false := by
  simp [isDigitChar] at h
  simp [isIc]
  omega

theorem ccMatchAt_head {sp : List Char} {c1 c2 d1 d2 d3 : Char}
    {suf : List Char} (h1 : isIc c1 = true) (h2 : isSc c2 = true)
    (hsp : ∀ c ∈ sp, isSpaceChar c = true) (hd1 : isDigitChar d1 = true)
    (hd2 : isDigitChar d2 = true) (hd3 : isDigitChar d3 = true) :
    ccMatchAt (c1 :: c2 :: (sp ++ d1 :: d2 :: d3 :: suf)) =
      some (String.mk [d1, d2, d3], suf) := by
  have hdrop : List.dropWhile isSpaceChar (sp ++ d1 :: d2 :: d3 :: suf) =
      d1 :: d2 :: d3 :: suf :=
    dropWhile_all_append hsp (not_space_of_digit hd1) _
  simp only [ccMatchAt]
  rw [hdrop]
  simp [h1, h2, hd1, hd2, hd3]

theorem ccScan_occ_aux :
    ∀ (n : Nat) (l : List Char), l.length ≤ n →
    ∀ (pre sp : List Char) (c1 c2 d1 d2 d3 : Char) (suf : List Char),
      ccOccurrence l pre sp c1 c2 d1 d2 d3 suf →
      String.mk [d1, d2, d3] ∈ ccScanList l := by
  intro n
  induction n with
  | zero =>
    intro l hl pre sp c1 c2 d1 d2 d3 suf hocc
    have hnil : l = [] := List.length_eq_zero.mp (Nat.le_zero.mp hl)
    obtain ⟨hdec, -⟩ := hocc
    subst hnil
    exact absurd hdec.symm (by simp)
  | succ n ih =>
    intro l hl pre sp c1 c2 d1 d2 d3 suf hocc
    obtain ⟨hdec, h1, h2, hsp, hd1, hd2, hd3⟩ := hocc
    cases pre with
    | nil =>
      simp only [List.nil_append] at hdec
      subst hdec
      rw [ccScanList_cons_some (ccMatchAt_head h1 h2 hsp hd1 hd2 hd3)]
      simp
    | cons p pre' =>
      rw [List.cons_append] at hdec
      subst hdec
      have hlen : (pre' ++ c1 :: c2 :: (sp ++ d1 :: d2 :: d3 :: suf)).length ≤ n := by
        simp only [List.length_cons] at hl
        omega
      cases hm : ccMatchAt (p :: (pre' ++ c1 :: c2 :: (sp ++ d1 :: d2 :: d3 :: suf))) with
      | none =>
        rw [ccScanList_cons_none hm]
        exact ih _ hlen pre' sp c1 c2 d1 d2 d3 suf
          ⟨rfl, h1, h2, hsp, hd1, hd2, hd3⟩
      | some sr =>
        rw [ccScanList_cons_some hm]
        obtain ⟨a1, a2, sp0, e1, e2, e3, hl2, ha1, ha2, hsp0, he1, he2, he3, -⟩ :=
          ccMatchAt_some hm
        have hrest_len : sr.2.length ≤ n := by
          have := ccMatchAt_length hm
          simp only [List.length_cons] at this hl
          omega
        have h2' : pre' ++ c1 :: c2 :: (sp ++ d1 :: d2 :: d3 :: suf) =
            a2 :: (sp0 ++ e1 :: e2 :: e3 :: sr.2) := (List.cons_eq_cons.mp hl2).2
        have htails : pre' ++ c1 :: c2 :: (sp ++ d1 :: d2 :: d3 :: suf) =
            (a2 :: (sp0 ++ [e1, e2, e3])) ++ sr.2 := by
          rw [h2']
          simp
        rcases List.append_eq_append_iff.mp htails with ⟨w, hT, hw⟩ | ⟨w, hpre, hrest⟩
        · cases w with
          | nil =>
            simp only [List.append_nil] at hT
            rw [List.nil_append] at hw
            apply List.mem_cons_of_mem
            exact ih sr.2 hrest_len [] sp c1 c2 d1 d2 d3 suf
              ⟨hw.symm, h1, h2, hsp, hd1, hd2, hd3⟩
          | cons w0 w' =>
            rw [List.cons_append] at hw
            have hc1w : c1 = w0 := (List.cons_eq_cons.mp hw).1
            have hmem : w0 ∈ a2 :: (sp0 ++ [e1, e2, e3]) := by
              rw [hT]
              exact List.mem_append_right pre' (by simp)
            rw [← hc1w] at hmem
            rcases List.mem_cons.mp hmem with hca | hca
            · rw [hca] at h1
              rw [not_isIc_of_isSc ha2] at h1
              cases h1
            · rcases List.mem_append.mp hca with hca' | hca'
              · rw [not_isIc_of_space (hsp0 c1 hca')] at h1
                cases h1
              · have hfalse : isIc c1 = false := by
                  rw [List.mem_cons, List.mem_cons, List.mem_singleton] at hca'
                  rcases hca' with h | h | h
                  · rw [h]; exact not_isIc_of_digit he1
                  · rw [h]; exact not_isIc_of_digit he2
                  · rw [h]; exact not_isIc_of_digit he3
                rw [hfalse] at h1
                cases h1
        · apply List.mem_cons_of_mem
          exact ih sr.2 hrest_len w sp c1 c2 d1 d2 d3 suf
            ⟨hrest, h1, h2, hsp, hd1, hd2, hd3⟩

theorem ccScan_occurrence {l pre sp : List Char} {c1 c2 d1 d2 d3 : Char}
    {suf : List Char} (h : ccOccurrence l pre sp c1 c2 d1 d2 d3 suf) :
    String.mk [d1, d2, d3] ∈ ccScanList l :=
  ccScan_occ_aux l.length l le_rfl pre sp c1 c2 d1 d2 d3 suf h

theorem alookup_append_some {α : Type} {k : String} {v : α}
    {l1 : List (String × α)} (l2 : List (String × α))
    (h : alookup k l1 = some v) : alookup k (l1 ++ l2) = some v := by
  induction l1 with
  | nil => cases h
  | cons hd tl ih =>
    by_cases hk : hd.1 = k
    · simp [alookup, hk] at h ⊢; exact h
    · simp [alookup, hk] at h ⊢; exact ih h

theorem alookup_append_none {α : Type} {k : String}
    {l1 : List (String × α)} (l2 : List (String × α))
    (h : alookup k l1 = Option.none) :
    alookup k (l1 ++ l2) = alookup k l2 := by
  induction l1 with
  | nil => rfl
  | cons hd tl ih =>
    by_cases hk : hd.1 = k
    · simp [alookup, hk] at h
    · simp [alookup, hk] at h ⊢; exact ih h

theorem rawEntities_lookup_not_mem (t : List Char) :
    ∀ (L : List (String × (List Char → List String))) (name : String),
      name ∉ keys L →
      alookup name (L.filterMap (fun nm =>
        let ms := nm.2 t
        if ms.isEmpty then Option.none else some (nm.1, ms))) =
        Option.none := by
  intro L
  induction L with
  | nil => intro name _; rfl
  | cons hd tl ih =>
    intro name hname
    have hne : hd.1 ≠ name := by
      intro e; exact hname (by simp [keys, e])
    have htl : name ∉ keys tl := by
      intro m; exact hname (by simp [keys] at m ⊢; exact Or.inr m)
    simp only [List.filterMap_cons]
    by_cases he : ((hd.2) t).isEmpty
    · simp only [he, if_true]
      exact ih name htl
    · simp only [he, if_false, alookup, hne]
      exact ih name htl

theorem rawEntities_lookup_mem (t : List Char) :
    ∀ (L : List (String × (List Char → List String))) (name : String)
      (m : List Char → List String), (keys L).Nodup → (name, m) ∈ L →
      alookup name (L.filterMap (fun nm =>
        let ms := nm.2 t
        if ms.isEmpty then Option.none else some (nm.1, ms))) =
        if (m t).isEmpty then Option.none else some (m t) := by
  intro L
  induction L with
  | nil => intro name m _ hmem; cases hmem
  | cons hd tl ih =>
    intro name m hnd hmem
    have hnd' : hd.1 ∉ keys tl ∧ (keys tl).Nodup := by simpa [keys] using hnd
    rcases List.mem_cons.mp hmem with heq | htl
    · have hhd : hd = (name, m) := heq.symm
      subst hhd
      simp only [List.filterMap_cons]
      by_cases he : (m t).isEmpty
      · simp only [he, if_true]
        rw [rawEntities_lookup_not_mem t tl name hnd'.1]
      · simp [he, alookup]
    · have hne : hd.1 ≠ name := by
        intro e
        apply hnd'.1
        rw [e]
        exact List.mem_map_of_mem Prod.fst htl
      simp only [List.filterMap_cons]
      by_cases he : ((hd.2) t).isEmpty
      · simp only [he, if_true]
        exact ih name m hnd'.2 htl
      · simp only [he, if_false, alookup, hne]
        exact ih name m hnd'.2 htl

/- ### Claim C9: entity extraction -/

/-- Claim C9: an entity-type key is present in `extract_entities` only
with that type's nonempty match list; any occurrence of `IS` + optional
whitespace + three digits (case-insensitive) puts its digit string under
`course_code`; and `course_name` is present exactly when at least one
matched code, prefixed with the literal `IS`, is in the static table —
codes without a table entry are dropped by the `filterMap` and raise no
error. -/
theorem c9_entity_extraction (text : String) :
    (∀ name m vs, (name, m) ∈ entityMatchers →
      alookup name (extract_entities text) = some vs →
      vs = m text.data ∧ vs ≠ []) ∧
    (∀ pre sp c1 c2 d1 d2 d3 suf,
      ccOccurrence text.data pre sp c1 c2 d1 d2 d3 suf →
      ∃ vs, alookup "course_code" (extract_entities text) = some vs ∧
        String.mk [d1, d2, d3] ∈ vs) ∧
    (∀ ns, alookup "course_name" (extract_entities text) = some ns →
      ns = (ccScanList text.data).filterMap
        (fun c => alookup ("IS" ++ c) course_names) ∧ ns ≠ []) ∧
    ((ccScanList text.data).filterMap
        (fun c => alookup ("IS" ++ c) course_names) ≠ [] →
      alookup "course_name" (extract_entities text) =
        some ((ccScanList text.data).filterMap
          (fun c => alookup ("IS" ++ c) course_names))) := by
  have hnd : (keys entityMatchers).Nodup := by decide
  have hcc : alookup "course_code" (rawEntities text.data) =
      if (ccScanList text.data).isEmpty then Option.none
      else some (ccScanList text.data) :=
    rawEntities_lookup_mem text.data entityMatchers "course_code" ccScanList
      hnd (by simp [entityMatchers])
  have hcn_raw : alookup "course_name" (rawEntities text.data) = Option.none :=
    rawEntities_lookup_not_mem text.data entityMatchers "course_name"
      (by decide)
  refine ⟨?_, ?_, ?_, ?_⟩
  · intro name m vs hmem hlook
    have hname_ne : name ≠ "course_name" := by
      intro e
      have hk : name ∈ keys entityMatchers := List.mem_map_of_mem Prod.fst hmem
      rw [e] at hk
      exact absurd hk (by decide)
    have hraw : alookup name (rawEntities text.data) =
        if (m text.data).isEmpty then Option.none else some (m text.data) :=
      rawEntities_lookup_mem text.data entityMatchers name m hnd hmem
    have hlook' : alookup name (rawEntities text.data) = some vs := by
      simp only [extract_entities] at hlook
      cases hcc2 : alookup "course_code" (rawEntities text.data) with
      | none => simp only [hcc2] at hlook; exact hlook
      | some codes =>
        simp only [hcc2] at hlook
        by_cases hne : (codes.filterMap
            (fun c => alookup ("IS" ++ c) course_names)).isEmpty
        · rw [if_pos hne] at hlook
          exact hlook
        · rw [if_neg hne] at hlook
          have hcn' : ¬ ("course_name" = name) := fun e => hname_ne e.symm
          cases hr : alookup name (rawEntities text.data) with
          | some v =>
            rw [alookup_append_some _ hr] at hlook
            exact hlook
          | none =>
            rw [alookup_append_none _ hr] at hlook
            simp [alookup, hcn'] at hlook
    rw [hraw] at hlook'
    by_cases he : (m text.data).isEmpty
    · rw [if_pos he] at hlook'; cases hlook'
    · rw [if_neg he] at hlook'
      refine ⟨(Option.some.injEq _ _ ▸ hlook').symm, ?_⟩
      intro hnil
      apply he
      have : vs = m text.data := by
        injection hlook' with h'
        exact h'.symm
      rw [← this, hnil]
      rfl
  · intro pre sp c1 c2 d1 d2 d3 suf hocc
    have hmem := ccScan_occurrence hocc
    have hne : ¬ (ccScanList text.data).isEmpty := by
      intro he
      rw [List.isEmpty_iff.mp he] at hmem
      cases hmem
    have hccv : alookup "course_code" (rawEntities text.data) =
        some (ccScanList text.data) := by
      rw [hcc, if_neg hne]
    refine ⟨ccScanList text.data, ?_, hmem⟩
    simp only [extract_entities]
    simp only [hccv]
    by_cases hn : ((ccScanList text.data).filterMap
        (fun c => alookup ("IS" ++ c) course_names)).isEmpty
    · rw [if_pos hn]
      exact hccv
    · rw [if_neg hn]
      exact alookup_append_some _ hccv
  · intro ns hlook
    simp only [extract_entities] at hlook
    cases hcc2 : alookup "course_code" (rawEntities text.data) with
    | none =>
      simp only [hcc2] at hlook
      rw [hcn_raw] at hlook
      cases hlook
    | some codes =>
      have hcodes : codes = ccScanList text.data := by
        rw [hcc2] at hcc
        by_cases he : (ccScanList text.data).isEmpty
        · rw [if_pos he] at hcc; cases hcc
        · rw [if_neg he] at hcc
          injection hcc with h'
      simp only [hcc2] at hlook
      by_cases hne : (codes.filterMap
          (fun c => alookup ("IS" ++ c) course_names)).isEmpty
      · rw [if_pos hne] at hlook
        rw [hcn_raw] at hlook
        cases hlook
      · rw [if_neg hne] at hlook
        rw [alookup_append_none _ hcn_raw] at hlook
        have hstep : alookup "course_name"
            [("course_name", codes.filterMap
              (fun c => alookup ("IS" ++ c) course_names))] =
            some (codes.filterMap
              (fun c => alookup ("IS" ++ c) course_names)) := by
          simp [alookup]
        rw [hstep] at hlook
        injection hlook with hlook'
        subst hcodes
        refine ⟨hlook'.symm, ?_⟩
        intro hnil
        apply hne
        rw [hlook', hnil]
        rfl
  · intro hne
    have hscan_ne : ¬ (ccScanList text.data).isEmpty := by
      intro he
      rw [List.isEmpty_iff.mp he] at hne
      exact hne rfl
    have hccv : alookup "course_code" (rawEntities text.data) =
        some (ccScanList text.data) := by
      rw [hcc, if_neg hscan_ne]
    have hne' : ¬ ((ccScanList text.data).filterMap
        (fun c => alookup ("IS" ++ c) course_names)).isEmpty := by
      intro he
      exact hne (List.isEmpty_iff.mp he)
    simp only [extract_entities]
    simp only [hccv]
    rw [if_neg hne']
    rw [alookup_append_none _ hcn_raw]
    simp [alookup]

/- ### Intent-classification lemmas -/

theorem filterMap_none_nil {α β : Type} (f : α → Option β) :
    ∀ L : List α, (∀ a ∈ L, f a = Option.none) → L.filterMap f = [] := by
  intro L
  induction L with
  | nil => intro _; rfl
  | cons hd tl ih =>
    intro h
    rw [List.filterMap_cons, h hd (by simp)]
    exact ih (fun a ha => h a (by simp [ha]))

theorem filterMap_eq_append_cons {α β : Type} (f : α → Option β) :
    ∀ (L : List α) (p : List β) (x : β) (q : List β),
      L.filterMap f = p ++ x :: q →
      ∃ A a B, L = A ++ a :: B ∧ A.filterMap f = p ∧ f a = some x ∧
        B.filterMap f = q := by
  intro L
  induction L with
  | nil =>
    intro p x q h
    rw [List.filterMap_nil] at h
    cases p <;> simp at h
  | cons hd tl ih =>
    intro p x q h
    cases hf : f hd with
    | none =>
      rw [List.filterMap_cons, hf] at h
      obtain ⟨A, a, B, h1, h2, h3, h4⟩ := ih p x q h
      refine ⟨hd :: A, a, B, by rw [h1]; rfl, ?_, h3, h4⟩
      rw [List.filterMap_cons, hf]
      exact h2
    | some b =>
      rw [List.filterMap_cons, hf] at h
      cases p with
      | nil =>
        simp only [List.nil_append] at h
        have hb : b = x := (List.cons_eq_cons.mp h).1
        have ht : tl.filterMap f = q := (List.cons_eq_cons.mp h).2
        exact ⟨[], hd, tl, rfl, rfl, by rw [hf, hb], ht⟩
      | cons p0 p' =>
        rw [List.cons_append] at h
        have hb : b = p0 := (List.cons_eq_cons.mp h).1
        have ht : tl.filterMap f = p' ++ x :: q := (List.cons_eq_cons.mp h).2
        obtain ⟨A, a, B, h1, h2, h3, h4⟩ := ih p' x q ht
        refine ⟨hd :: A, a, B, by rw [h1]; rfl, ?_, h3, h4⟩
        rw [List.filterMap_cons, hf, h2, hb]

theorem pickMax_spec :
    ∀ (xs : List (String × ℚ)) (b : String × ℚ),
      ∃ p q, b :: xs = p ++ pickMax b xs :: q ∧
        (∀ y ∈ p, y.2 < (pickMax b xs).2) ∧
        (∀ y ∈ b :: xs, y.2 ≤ (pickMax b xs).2) := by
  intro xs
  induction xs with
  | nil =>
    intro b
    exact ⟨[], [], rfl, by simp, by simp [pickMax]⟩
  | cons x rest ih =>
    intro b
    by_cases hx : x.2 > b.2
    · have hpm : pickMax b (x :: rest) = pickMax x rest := by
        simp [pickMax, hx]
      obtain ⟨p, q, h1, h2, h3⟩ := ih x
      refine ⟨b :: p, q, ?_, ?_, ?_⟩
      · rw [hpm, List.cons_append, ← h1]
      · intro y hy
        rw [hpm]
        rcases List.mem_cons.mp hy with hyb | hy'
        · rw [hyb]
          exact lt_of_lt_of_le hx (h3 x (by simp))
        · exact h2 y hy'
      · intro y hy
        rw [hpm]
        rcases List.mem_cons.mp hy with hyb | hy'
        · rw [hyb]
          exact le_of_lt (lt_of_lt_of_le hx (h3 x (by simp)))
        · exact h3 y hy'
    · have hpm : pickMax b (x :: rest) = pickMax b rest := by
        simp [pickMax, hx]
      have hxb : x.2 ≤ b.2 := le_of_not_lt hx
      obtain ⟨p, q, h1, h2, h3⟩ := ih b
      cases p with
      | nil =>
        rw [List.nil_append] at h1
        have hbb : b = pickMax b rest := (List.cons_eq_cons.mp h1).1
        have hq : rest = q := (List.cons_eq_cons.mp h1).2
        refine ⟨[], x :: rest, by rw [hpm, ← hbb]; simp, by simp, ?_⟩
        intro y hy
        rw [hpm, ← hbb]
        rcases List.mem_cons.mp hy with hyb | hy'
        · rw [hyb]
        · rcases List.mem_cons.mp hy' with hyx | hy''
          · rw [hyx]; exact hxb
          · have := h3 y (by simp [hy''])
            rw [← hbb] at this
            exact this
      | cons p0 p' =>
        rw [List.cons_append] at h1
        have hbp : b = p0 := (List.cons_eq_cons.mp h1).1
        have hrest : rest = p' ++ pickMax b rest :: q := (List.cons_eq_cons.mp h1).2
        refine ⟨b :: x :: p', q, ?_, ?_, ?_⟩
        · rw [hpm, List.cons_append, List.cons_append, ← hrest]
        · intro y hy
          rw [hpm]
          have hh := h2 p0 (by simp)
          rw [← hbp] at hh
          rcases List.mem_cons.mp hy with hyb | hy'
          · rw [hyb]
            exact hh
          · rcases List.mem_cons.mp hy' with hyx | hy''
            · rw [hyx]
              exact lt_of_le_of_lt hxb hh
            · exact h2 y (by simp [hy''])
        · intro y hy
          rw [hpm]
          rcases List.mem_cons.mp hy with hyb | hy'
          · rw [hyb]
            exact h3 b (by simp)
          · rcases List.mem_cons.mp hy' with hyx | hy''
            · rw [hyx]
              exact le_trans hxb (h3 b (by simp))
            · exact h3 y (by simp [hy''])

theorem scoreOf_nonneg (t : List Char) (ps : List IPat) :
    0 ≤ scoreOf t ps := by
  unfold scoreOf
  positivity

theorem scoreOf_zero {t : List Char} {ps : List IPat}
    (h : patsCount t ps = 0) : scoreOf t ps = 0 := by
  unfold scoreOf
  rw [h]
  simp

theorem scoreOf_pos {t : List Char} {ps : List IPat}
    (h : patsCount t ps ≠ 0) (hlen : 0 < ps.length) : 0 < scoreOf t ps := by
  unfold scoreOf
  apply div_pos
  · exact_mod_cast Nat.pos_of_ne_zero h
  · exact_mod_cast hlen

/- ### Claim C4: intent classification -/

/-- Claim C4: `classify` scores each intent as its total regex-match
count divided by its pattern-list length, returns the first intent (in
`intent_patterns` order) attaining the maximum normalized score together
with that score, and returns exactly `("unknown", 0.0)` when no pattern
of any intent matches. -/
theorem c4_intent_classification (text : String) :
    ((∀ p ∈ intentPatterns, patsCount (strLower text).data p.2 = 0) →
      classify text = ("unknown", 0)) ∧
    ((∃ p ∈ intentPatterns, patsCount (strLower text).data p.2 ≠ 0) →
      ∃ A w B, intentPatterns = A ++ w :: B ∧
        (classify text).1 = w.1 ∧
        (classify text).2 = scoreOf (strLower text).data w.2 ∧
        (∀ p ∈ intentPatterns, scoreOf (strLower text).data p.2 ≤ (classify text).2) ∧
        (∀ p ∈ A, scoreOf (strLower text).data p.2 < (classify text).2)) := by
  set t := (strLower text).data with ht
  have hlen : ∀ p ∈ intentPatterns, 0 < p.2.length := by decide
  constructor
  · intro hz
    have hnil : intentScores t = [] := by
      apply filterMap_none_nil
      intro a ha
      simp only [hz a ha]
      rfl
    unfold classify
    rw [← ht, hnil]
  · intro hex
    obtain ⟨p₀, hp₀, hc₀⟩ := hex
    have hsome : (fun ip =>
        if patsCount t ip.2 > 0 then some (ip.1, scoreOf t ip.2)
        else Option.none) p₀ = some (p₀.1, scoreOf t p₀.2) := by
      simp only [if_pos (Nat.pos_of_ne_zero hc₀)]
    have hmem : (p₀.1, scoreOf t p₀.2) ∈ intentScores t :=
      List.mem_filterMap.mpr ⟨p₀, hp₀, hsome⟩
    cases hsc : intentScores t with
    | nil => rw [hsc] at hmem; cases hmem
    | cons x xs =>
      have hclassify : classify text = pickMax x xs := by
        unfold classify
        rw [← ht, hsc]
      obtain ⟨pl, ql, hdec, hlt, hle⟩ := pickMax_spec xs x
      rw [← hsc] at hdec
      obtain ⟨A, w, B, hAB, hA, hw, hB⟩ :=
        filterMap_eq_append_cons _ intentPatterns pl (pickMax x xs) ql hdec
      have hwcount : patsCount t w.2 > 0 ∧
          pickMax x xs = (w.1, scoreOf t w.2) := by
        by_cases hcw : patsCount t w.2 > 0
        · refine ⟨hcw, ?_⟩
          rw [if_pos hcw] at hw
          exact (Option.some.injEq _ _ ▸ hw).symm
        · rw [if_neg hcw] at hw; cases hw
      have hbest_pos : 0 < (pickMax x xs).2 := by
        rw [hwcount.2]
        exact scoreOf_pos (Nat.pos_iff_ne_zero.mp hwcount.1)
          (hlen w (by rw [hAB]; simp))
      refine ⟨A, w, B, hAB, ?_, ?_, ?_, ?_⟩
      · rw [hclassify, hwcount.2]
      · rw [hclassify, hwcount.2]
      · intro p hp
        rw [hclassify]
        by_cases hcp : patsCount t p.2 > 0
        · have hmem' : (p.1, scoreOf t p.2) ∈ intentScores t :=
            List.mem_filterMap.mpr ⟨p, hp, by simp only [if_pos hcp]⟩
          rw [hsc] at hmem'
          exact hle (p.1, scoreOf t p.2) hmem'
        · have : patsCount t p.2 = 0 := Nat.eq_zero_of_not_pos hcp
          rw [scoreOf_zero this]
          exact le_of_lt hbest_pos
      · intro p hp
        rw [hclassify]
        by_cases hcp : patsCount t p.2 > 0
        · have hmem' : (p.1, scoreOf t p.2) ∈ pl :=
            hA ▸ List.mem_filterMap.mpr ⟨p, hp, by simp only [if_pos hcp]⟩
          exact hlt (p.1, scoreOf t p.2) hmem'
        · have : patsCount t p.2 = 0 := Nat.eq_zero_of_not_pos hcp
          rw [scoreOf_zero this]
          exact hbest_pos

/-- Witness for C4 at the text `hello`: some pattern matches, and the
returned intent is a first maximum. -/
theorem c4_intent_classification_witness :
    ∃ A w B, intentPatterns = A ++ w :: B ∧
      (classify "hello").1 = w.1 ∧
      (classify "hello").2 = scoreOf (strLower "hello").data w.2 ∧
      (∀ p ∈ intentPatterns,
        scoreOf (strLower "hello").data p.2 ≤ (classify "hello").2) ∧
      (∀ p ∈ A, scoreOf (strLower "hello").data p.2 < (classify "hello").2) :=
  (c4_intent_classification "hello").2 ⟨("greeting",
    [IPat.lit "hello", IPat.lit "hi", IPat.lit "hey", IPat.lit "greetings",
      IPat.lit "good morning", IPat.lit "good afternoon",
      IPat.lit "good evening"]), by decide, by decide⟩

/- ### Claim C5: complexity classifier -/

/-- Claim C5: `is_complex_question` is a pure function of the message
text that returns true iff the message contains a fixed trigger
substring, or has strictly more than 10 words, or contains more than one
question mark, or its lower-cased form contains a fixed complexity
phrase; in particular three question marks force complexity, and a
5-word message with none of the triggers, at most one question mark and
none of the phrases is not complex. -/
theorem c5_complexity_classifier (m : String) :
    (is_complex_question m = true ↔
      hasTriggerSubstring m = true ∨ wordCount m > 10 ∨
        questionMarks m > 1 ∨ hasComplexPhrase m = true) ∧
    (questionMarks m = 3 → is_complex_question m = true) ∧
    (wordCount m = 5 → hasTriggerSubstring m = false →
      questionMarks m ≤ 1 → hasComplexPhrase m = false →
      is_complex_question m = false) := by
  have hiff : is_complex_question m = true ↔
      hasTriggerSubstring m = true ∨ wordCount m > 10 ∨
        questionMarks m > 1 ∨ hasComplexPhrase m = true := by
    constructor
    · intro h
      unfold is_complex_question at h
      split_ifs at h with h1 h2 h3 h4 h5 h6
      · left
        unfold hasTriggerSubstring
        simp only [Bool.or_eq_true] at h1 ⊢
        tauto
      · left
        unfold hasTriggerSubstring
        simp only [Bool.or_eq_true] at h2 ⊢
        tauto
      · left
        unfold hasTriggerSubstring
        simp only [Bool.or_eq_true] at h3 ⊢
        tauto
      · right; left; exact h4
      · right; right; left; exact h5
      · right; right; right
        unfold hasComplexPhrase
        exact h6
    · intro h
      unfold is_complex_question
      split_ifs with h1 h2 h3 h4 h5 h6
      · rfl
      · rfl
      · rfl
      · rfl
      · rfl
      · rfl
      · exfalso
        unfold hasTriggerSubstring hasComplexPhrase at h
        simp only [Bool.or_eq_true] at h h1 h2 h3
        rcases h with h | h | h | h
        · tauto
        · exact h4 h
        · exact h5 h
        · exact h6 h
  refine ⟨hiff, ?_, ?_⟩
  · intro h3q
    exact hiff.mpr (Or.inr (Or.inr (Or.inl (by omega))))
  · intro hw ht hq hp
    by_contra hcx
    rw [Bool.not_eq_false] at hcx
    rcases hiff.mp hcx with h | h | h | h
    · rw [ht] at h; cases h
    · omega
    · omega
    · rw [hp] at h; cases h

/-- Witness for C5: a message with three question marks is complex, and
a 5-word message without triggers, extra question marks or phrases is
not. -/
theorem c5_complexity_classifier_witness :
    is_complex_question "a?b?c?" = true ∧
    is_complex_question "aa bb cc dd ee" = false :=
  ⟨(c5_complexity_classifier "a?b?c?").2.1 (by decide),
    (c5_complexity_classifier "aa bb cc dd ee").2.2 (by decide) (by decide)
      (by decide) (by decide)⟩

/- ### Flow round-trip lemmas -/

theorem get_context_live {cm : ContextManager} {uid : String} {now : Int}
    {ctx : Record} (h : (get_context cm uid now).2 = some ctx) :
    get_context cm uid now = (cm, some ctx) ∧
    ∃ rec, alookup uid cm.contexts = some rec ∧ ctx = stripInternal rec := by
  cases hrec : alookup uid cm.contexts with
  | none =>
    unfold get_context at h
    rw [hrec] at h
    cases h
  | some rec =>
    have hng : get_context cm uid now =
        (if now - lastUpdated rec > cm.expiry_seconds then
          (clear_context cm uid, Option.none)
        else (cm, some (stripInternal rec))) := by
      unfold get_context
      rw [hrec]
    by_cases hexp : now - lastUpdated rec > cm.expiry_seconds
    · rw [hng, if_pos hexp] at h
      cases h
    · rw [hng, if_neg hexp] at h
      rw [hng, if_neg hexp]
      injection h with h'
      exact ⟨by rw [h'], rec, rfl, h'.symm⟩

theorem update_context_eq {cm : ContextManager} {uid : String}
    {rec : Record} (hrec : alookup uid cm.contexts = some rec)
    (k : String) (v : Value) (now : Int) :
    update_context cm uid k v now =
      ContextManager.mk
        (aset uid (aset "_last_updated" (Value.int now) (aset k v rec))
          cm.contexts)
        cm.expiry_seconds := by
  unfold update_context
  rw [hrec]

theorem update_update_lookup (cm : ContextManager) (uid : String)
    (rec : Record) (hrec : alookup uid cm.contexts = some rec)
    (k1 k2 : String) (v1 v2 : Value) (now : Int) (h21 : k1 ≠ k2)
    (h1 : k1 ≠ "_last_updated") (h2 : k2 ≠ "_last_updated") :
    ∃ rec', alookup uid (update_context (update_context cm uid k1 v1 now)
        uid k2 v2 now).contexts = some rec' ∧
      alookup k1 rec' = some v1 ∧ alookup k2 rec' = some v2 := by
  have h1eq := update_context_eq hrec k1 v1 now
  have hs1 : alookup uid (update_context cm uid k1 v1 now).contexts =
      some (aset "_last_updated" (Value.int now) (aset k1 v1 rec)) := by
    rw [h1eq]
    exact alookup_aset_self _ _ _
  have h2eq := update_context_eq hs1 k2 v2 now
  refine ⟨aset "_last_updated" (Value.int now)
      (aset k2 v2 (aset "_last_updated" (Value.int now) (aset k1 v1 rec))),
    ?_, ?_, ?_⟩
  · rw [h2eq]
    exact alookup_aset_self _ _ _
  · rw [alookup_aset_ne _ _ h1, alookup_aset_ne _ _ h21,
      alookup_aset_ne _ _ h1]
    exact alookup_aset_self _ _ _
  · rw [alookup_aset_ne _ _ h2]
    exact alookup_aset_self _ _ _

/- ### Claim C1: course_info flow round-trip -/

/-- Claim C1: with no active step and no course code among the last-turn
entities, the `course_info` flow stores `active_flow = "course_info"`
and `active_step = 1` and returns the course-code prompt; on a following
turn dispatched with `active_flow = "course_info"` and `active_step = 1`,
a message whose extraction yields a course code is answered from the
static table (via `_get_course_info` on `IS` + the first code) with both
keys reset to `None`, while a message with no code returns the re-prompt
and leaves the whole store unchanged (no advancement, no refresh). -/
theorem c1_course_info_flow :
    (∀ (cm : ContextManager) (uid msg : String) (ctx rec : Record)
      (now : Int),
      alookup uid cm.contexts = some rec →
      rget ctx "active_step" = Value.none →
      codesOf (entitiesOf ctx) = [] →
      (handle_course_info_flow cm uid msg ctx now).2 =
        some "Which course would you like information about? Please provide the course code (e.g., IS621)." ∧
      ∃ rec', alookup uid
          (handle_course_info_flow cm uid msg ctx now).1.contexts =
          some rec' ∧
        alookup "active_flow" rec' = some (Value.str "course_info") ∧
        alookup "active_step" rec' = some (Value.int 1)) ∧
    (∀ (env : Env) (cm : ContextManager) (uid msg : String) (ctx : Record)
      (now : Int) (code : String) (rest : List String),
      env.authenticated = true →
      (get_context cm uid now).2 = some ctx →
      rget ctx "active_flow" = Value.str "course_info" →
      rget ctx "active_step" = Value.int 1 →
      codesOf (extract_entities msg) = code :: rest →
      (process_message env cm uid msg now).2 =
        some (get_course_info ("IS" ++ code)) ∧
      ∃ rec', alookup uid
          (process_message env cm uid msg now).1.contexts = some rec' ∧
        alookup "active_flow" rec' = some Value.none ∧
        alookup "active_step" rec' = some Value.none) ∧
    (∀ (env : Env) (cm : ContextManager) (uid msg : String) (ctx : Record)
      (now : Int),
      env.authenticated = true →
      (get_context cm uid now).2 = some ctx →
      rget ctx "active_flow" = Value.str "course_info" →
      rget ctx "active_step" = Value.int 1 →
      codesOf (extract_entities msg) = [] →
      process_message env cm uid msg now =
        (cm, some "I couldn't identify a course code. Please provide a valid course code like IS621.")) := by
  have hdisp : ∀ (env : Env) (cm : ContextManager) (uid msg : String)
      (ctx : Record) (now : Int),
      env.authenticated = true →
      (get_context cm uid now).2 = some ctx →
      rget ctx "active_flow" = Value.str "course_info" →
      rget ctx "active_step" = Value.int 1 →
      process_message env cm uid msg now =
        handle_course_info_flow cm uid msg ctx now := by
    intro env cm uid msg ctx now hauth hget hflow hstep
    obtain ⟨hlive, -⟩ := get_context_live hget
    have hpm : process_message env cm uid msg now =
        process_authenticated env cm ctx uid msg now := by
      unfold process_message
      rw [hauth, hlive]
      rfl
    rw [hpm]
    unfold process_authenticated
    rw [hflow, hstep]
    rfl
  refine ⟨?_, ?_, ?_⟩
  · intro cm uid msg ctx rec now hrec hstep hcodes
    have hflow_eq : handle_course_info_flow cm uid msg ctx now =
        (update_context (update_context cm uid "active_flow"
          (Value.str "course_info") now) uid "active_step" (Value.int 1) now,
         some "Which course would you like information about? Please provide the course code (e.g., IS621).") := by
      simp only [handle_course_info_flow, hstep, hcodes]
    constructor
    · rw [hflow_eq]
    · rw [hflow_eq]
      exact update_update_lookup cm uid rec hrec "active_flow" "active_step"
        (Value.str "course_info") (Value.int 1) now (by decide) (by decide)
        (by decide)
  · intro env cm uid msg ctx now code rest hauth hget hflow hstep hcodes
    obtain ⟨-, rec, hrec, -⟩ := get_context_live hget
    rw [hdisp env cm uid msg ctx now hauth hget hflow hstep]
    have hflow_eq : handle_course_info_flow cm uid msg ctx now =
        (update_context (update_context cm uid "active_flow" Value.none now)
          uid "active_step" Value.none now,
         some (get_course_info ("IS" ++ code))) := by
      simp only [handle_course_info_flow, hstep, hcodes]
    constructor
    · rw [hflow_eq]
    · rw [hflow_eq]
      exact update_update_lookup cm uid rec hrec "active_flow" "active_step"
        Value.none Value.none now (by decide) (by decide) (by decide)
  · intro env cm uid msg ctx now hauth hget hflow hstep hcodes
    rw [hdisp env cm uid msg ctx now hauth hget hflow hstep]
    simp only [handle_course_info_flow, hstep, hcodes]

/-- Witness for C1: a store with an open `course_info` step answers
`IS623` and resets the flow, re-prompts on a code-less message leaving
the store unchanged, and a fresh record with no entities is prompted
into step 1. -/
theorem c1_course_info_flow_witness :
    ((process_message ⟨true, false, Option.none, fun _ _ _ => ""⟩
        ⟨[("u", [("active_flow", Value.str "course_info"),
          ("active_step", Value.int 1), ("_last_updated", Value.int 0)])],
          600⟩ "u" "IS623" 0).2 =
      some (get_course_info ("IS" ++ "623")) ∧
      ∃ rec', alookup "u"
          (process_message ⟨true, false, Option.none, fun _ _ _ => ""⟩
            ⟨[("u", [("active_flow", Value.str "course_info"),
              ("active_step", Value.int 1), ("_last_updated", Value.int 0)])],
              600⟩ "u" "IS623" 0).1.contexts = some rec' ∧
        alookup "active_flow" rec' = some Value.none ∧
        alookup "active_step" rec' = some Value.none) ∧
    process_message ⟨true, false, Option.none, fun _ _ _ => ""⟩
        ⟨[("u", [("active_flow", Value.str "course_info"),
          ("active_step", Value.int 1), ("_last_updated", Value.int 0)])],
          600⟩ "u" "no code here" 0 =
      (⟨[("u", [("active_flow", Value.str "course_info"),
          ("active_step", Value.int 1), ("_last_updated", Value.int 0)])],
          600⟩,
        some "I couldn't identify a course code. Please provide a valid course code like IS621.") ∧
    ∃ rec', alookup "u"
        (handle_course_info_flow
          ⟨[("u", [("_last_updated", Value.int 0)])], 600⟩ "u" "hi" [] 0).1.contexts =
        some rec' ∧
      alookup "active_flow" rec' = some (Value.str "course_info") ∧
      alookup "active_step" rec' = some (Value.int 1) :=
  ⟨(c1_course_info_flow.2.1 ⟨true, false, Option.none, fun _ _ _ => ""⟩
      ⟨[("u", [("active_flow", Value.str "course_info"),
        ("active_step", Value.int 1), ("_last_updated", Value.int 0)])], 600⟩
      "u" "IS623"
      [("active_flow", Value.str "course_info"), ("active_step", Value.int 1)]
      0 "623" [] rfl (by decide) (by decide) (by decide) (by decide)),
    (c1_course_info_flow.2.2 ⟨true, false, Option.none, fun _ _ _ => ""⟩
      ⟨[("u", [("active_flow", Value.str "course_info"),
        ("active_step", Value.int 1), ("_last_updated", Value.int 0)])], 600⟩
      "u" "no code here"
      [("active_flow", Value.str "course_info"), ("active_step", Value.int 1)]
      0 rfl (by decide) (by decide) (by decide) (by decide)),
    (c1_course_info_flow.1 ⟨[("u", [("_last_updated", Value.int 0)])], 600⟩
      "u" "hi" [] [("_last_updated", Value.int 0)] 0 rfl (by decide)
      (by decide)).2⟩

/- ### Conversation-history lemmas -/

theorem convOf_update (cm : ContextManager) (uid k : String) (v : Value)
    (now : Int) (hk : "claude_conversation" ≠ k) :
    convOf (update_context cm uid k v now) uid = convOf cm uid := by
  cases hrec : alookup uid cm.contexts with
  | none =>
    have h : update_context cm uid k v now = cm := by
      unfold update_context
      rw [hrec]
    rw [h]
  | some rec =>
    unfold convOf update_context
    rw [hrec]
    simp only [alookup_aset_self]
    rw [alookup_aset_ne _ _
        (show ("claude_conversation" : String) ≠ "_last_updated" by decide),
      alookup_aset_ne _ _ hk]

theorem convOf_set (cm : ContextManager) (uid : String) (p : Record)
    (now : Int) (hp : "claude_conversation" ∉ keys p) :
    convOf (set_context cm uid p now) uid = convOf cm uid := by
  unfold convOf set_context
  simp only [alookup_aset_self]
  rw [alookup_aset_ne _ _
      (show ("claude_conversation" : String) ≠ "_last_updated" by decide),
    alookup_rupdate_not_mem _ hp]
  cases hrec : alookup uid cm.contexts with
  | none => rfl
  | some rec => rfl

theorem convOf_complex (env : Env) (cm : ContextManager) (uid msg : String)
    (ctx : Record) :
    convOf (handle_complex_question env cm msg ctx).1 uid = convOf cm uid := by
  unfold handle_complex_question
  split <;> rfl

theorem convOf_course_info (cm : ContextManager) (uid msg : String)
    (ctx : Record) (now : Int) :
    convOf (handle_course_info_flow cm uid msg ctx now).1 uid =
      convOf cm uid := by
  have hAF : ∀ (c : ContextManager) (v : Value),
      convOf (update_context c uid "active_flow" v now) uid = convOf c uid :=
    fun c v => convOf_update c uid "active_flow" v now (by decide)
  have hAS : ∀ (c : ContextManager) (v : Value),
      convOf (update_context c uid "active_step" v now) uid = convOf c uid :=
    fun c v => convOf_update c uid "active_step" v now (by decide)
  unfold handle_course_info_flow
  split <;> (try split) <;> simp only [hAF, hAS]

theorem convOf_assignment (cm : ContextManager) (uid msg : String)
    (ctx : Record) (now : Int) :
    convOf (handle_assignment_flow cm uid msg ctx now).1 uid =
      convOf cm uid := by
  have hAF : ∀ (c : ContextManager) (v : Value),
      convOf (update_context c uid "active_flow" v now) uid = convOf c uid :=
    fun c v => convOf_update c uid "active_flow" v now (by decide)
  have hAS : ∀ (c : ContextManager) (v : Value),
      convOf (update_context c uid "active_step" v now) uid = convOf c uid :=
    fun c v => convOf_update c uid "active_step" v now (by decide)
  have hCC : ∀ (c : ContextManager) (v : Value),
      convOf (update_context c uid "current_course" v now) uid = convOf c uid :=
    fun c v => convOf_update c uid "current_course" v now (by decide)
  unfold handle_assignment_flow
  repeat' split
  all_goals simp only
    [apply_ite (fun p : ContextManager × Option String => convOf p.1 uid),
     hAF, hAS, hCC, ite_self]

theorem convOf_grades (cm : ContextManager) (uid msg : String)
    (ctx : Record) (now : Int) :
    convOf (handle_grades_flow cm uid msg ctx now).1 uid = convOf cm uid :=
  rfl

theorem convOf_learning_material (cm : ContextManager) (uid msg : String)
    (ctx : Record) (now : Int) :
    convOf (handle_learning_material_flow cm uid msg ctx now).1 uid =
      convOf cm uid := by
  have hAF : ∀ (c : ContextManager) (v : Value),
      convOf (update_context c uid "active_flow" v now) uid = convOf c uid :=
    fun c v => convOf_update c uid "active_flow" v now (by decide)
  have hAS : ∀ (c : ContextManager) (v : Value),
      convOf (update_context c uid "active_step" v now) uid = convOf c uid :=
    fun c v => convOf_update c uid "active_step" v now (by decide)
  unfold handle_learning_material_flow
  split <;> (try split) <;> simp only [hAF, hAS]

theorem convOf_dispatch (env : Env) (name : String) (cm : ContextManager)
    (uid msg : String) (ctx : Record) (now : Int)
    (res : ContextManager × Option String)
    (h : dispatchFlow env name cm uid msg ctx now = some res) :
    convOf res.1 uid = convOf cm uid := by
  unfold dispatchFlow at h
  split_ifs at h
  · injection h with h'
    rw [← h']
    exact convOf_course_info cm uid msg ctx now
  · injection h with h'
    rw [← h']
    exact convOf_assignment cm uid msg ctx now
  · injection h with h'
    rw [← h']
    exact convOf_grades cm uid msg ctx now
  · injection h with h'
    rw [← h']
    exact convOf_learning_material cm uid msg ctx now
  · injection h with h'
    rw [← h']
    exact convOf_complex env cm uid msg ctx

theorem convOf_process_auth (env : Env) (cm0 : ContextManager)
    (ctx : Record) (uid msg : String) (now : Int) :
    convOf (process_authenticated env cm0 ctx uid msg now).1 uid =
      convOf cm0 uid := by
  have hset1 : convOf (set_context cm0 uid
      [("last_intent", Value.str "complex_question"),
       ("last_message", Value.str msg)] now) uid = convOf cm0 uid :=
    convOf_set cm0 uid _ now (by simp [keys])
  have hset2 : convOf (set_context cm0 uid
      [("last_intent", Value.str (classify msg).1),
       ("last_confidence", Value.rat (classify msg).2),
       ("last_entities", Value.entmap (extract_entities msg))] now) uid =
      convOf cm0 uid :=
    convOf_set cm0 uid _ now (by simp [keys])
  simp only [process_authenticated]
  split
  next result heq =>
    split at heq
    · split at heq
      next name hname =>
        exact convOf_dispatch env name cm0 uid msg ctx now result heq
      next => cases heq
    · cases heq
  next heq =>
    split
    · rw [convOf_complex]
      exact hset1
    · split
      next result2 heq2 =>
        rw [convOf_dispatch _ _ _ _ _ _ _ _ heq2]
        exact hset2
      next heq2 =>
        split
        · rw [convOf_complex]
          exact hset2
        · exact hset2

theorem convOf_get_context (cm : ContextManager) (uid : String) (now : Int) :
    (get_context cm uid now).1 = cm ∨
    convOf (get_context cm uid now).1 uid = Option.none := by
  unfold get_context
  cases hrec : alookup uid cm.contexts with
  | none => left; rfl
  | some rec =>
    by_cases hexp : now - lastUpdated rec > cm.expiry_seconds
    · right
      simp only [hexp, if_true]
      unfold convOf clear_context
      rw [alookup_filter_ne]
    · left
      simp only [hexp, if_false]

/- ### Claim C6: conversation-history bound -/

/-- Claim C6 counterexample: a complex message is escalated to a
successful external-model call (knowledge found at score 70, the model
replies), yet the stored `claude_conversation` of the user is afterwards
exactly the old (empty) history — the user turn and the reply were never
appended and no 10-entry truncation was written back, while the claim
predicts a two-entry history after this turn. -/
theorem c6_counterexample :
    alookup "u" (process_message
        ⟨true, true, some ⟨200, ⟨[], true, 70⟩⟩, fun _ _ _ => "model reply"⟩
        ⟨[("u", [("claude_conversation", Value.conv []),
          ("_last_updated", Value.int 0)])], 600⟩
        "u" "compare IS621 and IS622 please?" 0).1.contexts =
      some [("claude_conversation", Value.conv []),
        ("_last_updated", Value.int 0),
        ("last_intent", Value.str "complex_question"),
        ("last_message", Value.str "compare IS621 and IS622 please?")] ∧
    (process_message
        ⟨true, true, some ⟨200, ⟨[], true, 70⟩⟩, fun _ _ _ => "model reply"⟩
        ⟨[("u", [("claude_conversation", Value.conv []),
          ("_last_updated", Value.int 0)])], 600⟩
        "u" "compare IS621 and IS622 please?" 0).2 = some "model reply" ∧
    Value.conv [] ≠ Value.conv
      [⟨"user", "compare IS621 and IS622 please?"⟩,
       ⟨"assistant", "model reply"⟩] := by
  refine ⟨by decide, by decide, by decide⟩

/-- Claim C6 amended: no path of a processed turn ever writes the
`claude_conversation` key — `handle_multi_part_question` reads the
stored history and passes it to the model but never appends the new
turns, truncates to 10 entries, or writes anything back; after any turn
the stored history is the previously stored one (or absent, when the
expired record was deleted on read). -/
theorem c6_history_never_written (env : Env) (cm : ContextManager)
    (uid msg : String) (now : Int) :
    convOf (process_message env cm uid msg now).1 uid = convOf cm uid ∨
    convOf (process_message env cm uid msg now).1 uid = Option.none := by
  by_cases hauth : env.authenticated = true
  · have hpm : process_message env cm uid msg now =
        process_authenticated env (get_context cm uid now).1
          ((get_context cm uid now).2.getD []) uid msg now := by
      unfold process_message
      rw [hauth]
      rfl
    rw [hpm, convOf_process_auth]
    rcases convOf_get_context cm uid now with h | h
    · left
      rw [h]
    · right
      exact h
  · have hf : env.authenticated = false := by
      revert hauth
      cases env.authenticated <;> simp
    have hpm : process_message env cm uid msg now =
        (cm, some ("Welcome to the SMU Master's Program AI Assistant!\n\nTo use this bot, you need to authenticate with your SMU email address.\n\nPlease click this link to authenticate: http://localhost:5050/login/" ++ uid)) := by
      unfold process_message
      rw [hf]
      rfl
    rw [hpm]
    left
    rfl

/- ### Claim C2: knowledge gating -/

/-- Claim C2: when the knowledge search reports no knowledge or a score
strictly below 65 and the message matches neither the
programming-keyword nor the basic-conversational allowlist,
`handle_multi_part_question` returns exactly the rejection string and
never reaches the model; a raised search call behaves exactly like a
successful search reporting `has_knowledge = False`,
`highest_score = 0` and no results (fail-open, no exception); and with
knowledge found at a score of at least 65 the titles and contents are
assembled into the system prompt and the model is called with the
stored history. -/
theorem c2_knowledge_gating (kb : Option KBReply) (message : String)
    (context : Record) :
    (((kbOutcome kb).1 = false ∨ (kbOutcome kb).2.1 < 65) →
      programming_keywords.any
        (fun k => strContains (strLower message) k) = false →
      basic_questions.any
        (fun b => strContains (strLower message) (strLower b)) = false →
      handle_multi_part_question kb message context =
        ModelDecision.reject "I don't have that in my knowledge.") ∧
    (handle_multi_part_question Option.none message context =
      handle_multi_part_question (some ⟨200, ⟨[], false, 0⟩⟩)
        message context) ∧
    (∀ reply, kb = some reply → reply.status = 200 →
      reply.body.has_knowledge = true → 65 ≤ reply.body.highest_score →
      handle_multi_part_question kb message context =
        ModelDecision.callModel message (historyOf context)
          (system_prompt ++
            (if assembleKnowledge reply.body.results ≠ "" then
              "\n\n" ++ assembleKnowledge reply.body.results else ""))) := by
  refine ⟨?_, ?_, ?_⟩
  · intro hlow htech hbasic
    simp only [handle_multi_part_question, htech, hbasic, Bool.not_false,
      Bool.and_true]
    rcases hlow with h | h
    · rw [h]
      simp
    · rw [decide_eq_true h]
      simp
  · rfl
  · intro reply hreply hstatus hfound hscore
    subst hreply
    have hout : kbOutcome (some reply) =
        (true, reply.body.highest_score,
          assembleKnowledge reply.body.results) := by
      simp only [kbOutcome]
      rw [if_pos hstatus, hfound]
    simp only [handle_multi_part_question, hout]
    rw [decide_eq_false (not_lt.mpr hscore)]
    simp

/-- Witness for C2: a score of 64 on a non-technical, non-basic message
is rejected; a score of 70 produces a knowledge-augmented model call. -/
theorem c2_knowledge_gating_witness :
    handle_multi_part_question
        (some ⟨200, ⟨[⟨"T", some "C", Option.none⟩], true, 64⟩⟩)
        "tell me more about quantum gravity" [] =
      ModelDecision.reject "I don't have that in my knowledge." ∧
    handle_multi_part_question
        (some ⟨200, ⟨[⟨"T", some "C", Option.none⟩], true, 70⟩⟩)
        "tell me more about quantum gravity" [] =
      ModelDecision.callModel "tell me more about quantum gravity" []
        (system_prompt ++
          (if assembleKnowledge [⟨"T", some "C", Option.none⟩] ≠ "" then
            "\n\n" ++ assembleKnowledge [⟨"T", some "C", Option.none⟩]
          else "")) :=
  ⟨(c2_knowledge_gating
      (some ⟨200, ⟨[⟨"T", some "C", Option.none⟩], true, 64⟩⟩)
      "tell me more about quantum gravity" []).1 (by decide) (by decide)
      (by decide),
    (c2_knowledge_gating
      (some ⟨200, ⟨[⟨"T", some "C", Option.none⟩], true, 70⟩⟩)
      "tell me more about quantum gravity" []).2.2
      ⟨200, ⟨[⟨"T", some "C", Option.none⟩], true, 70⟩⟩ rfl rfl rfl
      (by decide)⟩

/-- Witness for C9: the text `IS 621 x` has an occurrence of the pattern
with one space and digits 621, which extraction reports under
`course_code`, and the derived `course_name` is the table entry. -/
theorem c9_entity_extraction_witness :
    (∃ vs, alookup "course_code" (extract_entities "IS 621 x") = some vs ∧
      String.mk ['6', '2', '1'] ∈ vs) ∧
    alookup "course_name" (extract_entities "IS 621 x") =
      some ((ccScanList "IS 621 x".data).filterMap
        (fun c => alookup ("IS" ++ c) course_names)) :=
  ⟨(c9_entity_extraction "IS 621 x").2.1 [] [' '] 'I' 'S' '6' '2' '1'
      [' ', 'x'] ⟨by decide, by decide, by decide, by decide, by decide,
        by decide, by decide⟩,
    (c9_entity_extraction "IS 621 x").2.2.2 (by decide)⟩

end Bot
